import Mathlib

/-!
Verification development for the Cadabra SQL query-cache core
(`src/packages/cadabra/cadabra.ts`).

The TypeScript source is shallowly embedded as follows.

* JavaScript runtime values (the `unknown`-typed condition values, bound
  parameters, and SQL AST nodes) are modelled by the inductive type `Jv`.
  JavaScript numbers are modelled as `Int`: every numeric literal in the
  analyzed workloads is an integer and the source performs no
  fraction-producing arithmetic on them; correspondingly the `Number(...)`
  model parses optionally-signed integer strings.
* Strict equality `===` on arrays and objects is reference equality in
  JavaScript.  The values compared by this code always originate from
  distinct parse trees, so the model makes `===` false on non-primitives.
* The SQLite store becomes explicit association lists; `INSERT OR REPLACE`,
  `INSERT OR IGNORE` and the batched `DELETE ... WHERE fingerprint IN (...)`
  statements become the corresponding pure list operations, and each public
  store operation (one transaction in the source) becomes one pure state
  transition.
* `JSON.stringify`/`JSON.parse` round-tripping of results and cache keys is
  the identity on the modelled values (they contain no `undefined`,
  functions, or non-finite numbers), so the store keeps the values
  themselves.
* `createHash("sha256")` comes from `node:crypto`; it is implemented here
  directly from FIPS 180-4 over the UTF-8 bytes of the input.
* The SQL parser (`node-sql-parser`) is an external collaborator (spec
  §4.B); its output is modelled for the concrete statements exercised by the
  spec's scenarios.
-/

namespace Cadabra

/-- JavaScript runtime values as seen by the analyzer: `null`, booleans,
numbers (modelled as integers), strings, arrays, and plain objects
(field-name/value pairs in insertion order). -/
inductive Jv where
  | null : Jv
  | bool : Bool → Jv
  | num : Int → Jv
  | str : String → Jv
  | arr : List Jv → Jv
  | obj : List (String × Jv) → Jv
deriving Repr

mutual

/-- Boolean equality on `Jv`, used to derive decidable equality. -/
def jvBeq : Jv → Jv → Bool
  | .null, .null => true
  | .bool a, .bool b => a = b
  | .num a, .num b => a = b
  | .str a, .str b => a = b
  | .arr a, .arr b => jvBeqList a b
  | .obj a, .obj b => jvBeqObj a b
  | _, _ => false

def jvBeqList : List Jv → List Jv → Bool
  | [], [] => true
  | a :: as, b :: bs => jvBeq a b && jvBeqList as bs
  | _, _ => false

def jvBeqObj : List (String × Jv) → List (String × Jv) → Bool
  | [], [] => true
  | (ka, va) :: as, (kb, vb) :: bs => ka = kb && jvBeq va vb && jvBeqObj as bs
  | _, _ => false

end

mutual

theorem jvBeq_iff : ∀ a b : Jv, jvBeq a b = true ↔ a = b
  | .null, b => by cases b <;> simp [jvBeq]
  | .bool a, b => by cases b <;> simp [jvBeq]
  | .num a, b => by cases b <;> simp [jvBeq]
  | .str a, b => by cases b <;> simp [jvBeq]
  | .arr a, b => by
      cases b <;> simp [jvBeq]
      exact jvBeqList_iff a _
  | .obj a, b => by
      cases b <;> simp [jvBeq]
      exact jvBeqObj_iff a _

theorem jvBeqList_iff : ∀ a b : List Jv, jvBeqList a b = true ↔ a = b
  | [], b => by cases b <;> simp [jvBeqList]
  | a :: as, b => by
      cases b with
      | nil => simp [jvBeqList]
      | cons b bs => simp [jvBeqList, jvBeq_iff a b, jvBeqList_iff as bs]

theorem jvBeqObj_iff : ∀ a b : List (String × Jv), jvBeqObj a b = true ↔ a = b
  | [], b => by cases b <;> simp [jvBeqObj]
  | (ka, va) :: as, b => by
      cases b with
      | nil => simp [jvBeqObj]
      | cons p bs =>
        obtain ⟨kb, vb⟩ := p
        simp [jvBeqObj, jvBeq_iff va vb, jvBeqObj_iff as bs, and_assoc]

end

instance : DecidableEq Jv := fun a b =>
  decidable_of_iff (jvBeq a b = true) (jvBeq_iff a b)

/-- Property access `o.f`: `none` models `undefined` (absent field or
non-object receiver). -/
def jvField : Jv → String → Option Jv
  | .obj fields, name => (fields.find? (fun p => p.1 = name)).map (·.2)
  | _, _ => none

/-- JavaScript falsiness: `null`/`undefined`, `false`, `0`, and `""` are
falsy; everything else (including empty arrays and objects) is truthy. -/
def jsFalsy : Jv → Bool
  | .null => true
  | .bool false => true
  | .num 0 => true
  | .str "" => true
  | _ => false

mutual

/-- `String(v)`: JavaScript string conversion.  Arrays stringify as their
comma-joined elements, objects as `[object Object]`. -/
def jsString : Jv → String
  | .null => "null"
  | .bool true => "true"
  | .bool false => "false"
  | .num n => toString n
  | .str s => s
  | .arr xs => jsStringList xs
  | .obj _ => "[object Object]"

def jsStringList : List Jv → String
  | [] => ""
  | [x] => jsString x
  | x :: y :: rest => jsString x ++ "," ++ jsStringList (y :: rest)

end

/-- Decimal digit accumulation for the `Number()` model; `none` when a
non-digit is hit. -/
def digitsToNat : List Char → Option Nat
  | [] => none
  | cs =>
    cs.foldl (fun acc c =>
      match acc with
      | none => none
      | some n => if c.isDigit then some (n * 10 + (c.toNat - '0'.toNat)) else none)
      (some 0)

/-- `Number(s)` on a string, restricted to optionally-signed integer
literals surrounded by whitespace (the only numeric strings in the analyzed
workloads); `none` models `NaN`.  JavaScript converts the empty or
all-whitespace string to `0`. -/
def strToNum (s : String) : Option Int :=
  let ws := fun (c : Char) => c = ' ' ∨ c = '\t' ∨ c = '\n' ∨ c = '\r'
  let cs := s.data.dropWhile ws
  let cs := (cs.reverse.dropWhile ws).reverse
  match cs with
  | [] => some 0
  | '-' :: rest => (digitsToNat rest).map (fun n => -(n : Int))
  | '+' :: rest => (digitsToNat rest).map (fun n => (n : Int))
  | _ => (digitsToNat cs).map (fun n => (n : Int))

/-- `Number(v)`: JavaScript numeric conversion; `none` models `NaN`. -/
def jsToNum : Jv → Option Int
  | .null => some 0
  | .bool true => some 1
  | .bool false => some 0
  | .num n => some n
  | .str s => strToNum s
  | .arr [] => some 0
  | .arr [x] => jsToNum x
  | .arr (_ :: _ :: _) => none
  | .obj _ => none

/-- Strict equality `===`: value equality on primitives; reference equality
on arrays/objects, which is `false` for the values this code compares (they
come from distinct parse trees). -/
def jsStrictEq : Jv → Jv → Bool
  | .null, .null => true
  | .bool a, .bool b => a = b
  | .num a, .num b => a = b
  | .str a, .str b => a = b
  | _, _ => false

/-- `Array.prototype.includes` (SameValueZero agrees with `===` on the
modelled values). -/
def jsIncludes (xs : List Jv) (v : Jv) : Bool :=
  xs.any (fun x => jsStrictEq x v)

/-- Code-unit comparison of characters (the comparison underlying both the
default `Array.prototype.sort` comparator and `localeCompare` on the plain
identifiers appearing here; code point and UTF-16 code unit agree on
them). -/
def charLt (a b : Char) : Bool := a.toNat < b.toNat

/-- Lexicographic `<` on character lists. -/
def strLtList : List Char → List Char → Bool
  | [], [] => false
  | [], _ :: _ => true
  | _ :: _, [] => false
  | a :: as, b :: bs =>
    if charLt a b then true
    else if charLt b a then false
    else strLtList as bs

/-- JavaScript string comparison `a < b`. -/
def strLtB (a b : String) : Bool := strLtList a.data b.data

/-- JavaScript string comparison `a <= b`. -/
def strLeB (a b : String) : Bool := !(strLtList b.data a.data)

/-- JavaScript relational comparison `a > b`: string comparison when both
operands are strings, otherwise numeric comparison (false when either side
converts to `NaN`). -/
def jsGt : Jv → Jv → Bool
  | .str a, .str b => strLtB b a
  | a, b =>
    match jsToNum a, jsToNum b with
    | some x, some y => y < x
    | _, _ => false

/-- Lower-casing a string (`String.prototype.toLowerCase` on the ASCII
identifiers appearing here). -/
def strLower (s : String) : String := String.mk (s.data.map Char.toLower)

/-- Upper-casing a string. -/
def strUpper (s : String) : String := String.mk (s.data.map Char.toUpper)

/-- `String.prototype.trim`. -/
def strTrim (s : String) : String :=
  String.mk (((s.data.dropWhile isWsChar0).reverse.dropWhile isWsChar0).reverse)
where
  /-- Whitespace trimmed by `trim` (the subset occurring here). -/
  isWsChar0 (c : Char) : Bool := c = ' ' ∨ c = '\t' ∨ c = '\n' ∨ c = '\r'

/-- The first `n` characters of a string (`substring(0, n)`). -/
def strTake (s : String) (n : Nat) : String := String.mk (s.data.take n)

/-- `String.prototype.split` on a non-empty separator. -/
def splitOnStrGo (sep : List Char) : Nat → List Char → List Char → List (List Char)
  | 0, cur, cs => [cur.reverse ++ cs]
  | fuel + 1, cur, cs =>
    if sep.isPrefixOf cs then
      cur.reverse :: splitOnStrGo sep fuel [] (cs.drop sep.length)
    else
      match cs with
      | [] => [cur.reverse]
      | c :: rest => splitOnStrGo sep fuel (c :: cur) rest

/-- `String.prototype.split`. -/
def splitOnStr (s sep : String) : List String :=
  if sep.data.isEmpty then [s]
  else ((splitOnStrGo sep.data (s.data.length + 1) [] s.data).map String.mk)

/-- One step of a stable insertion sort by a string key: an element is
inserted after every element whose key is `≤` its own, which realises the
stability of `Array.prototype.sort`. -/
def insertByKey {α : Type} (key : α → String) (x : α) : List α → List α
  | [] => [x]
  | y :: ys => if strLeB (key y) (key x) then y :: insertByKey key x ys else x :: y :: ys

/-- Stable sort by a string key (the comparison used by the default
`Array.prototype.sort` comparator and by `localeCompare` on the identifiers
appearing here). -/
def sortByKey {α : Type} (key : α → String) (l : List α) : List α :=
  l.foldl (fun acc x => insertByKey key x acc) []

/-- Default `Array.prototype.sort()`: stable sort by the string conversion
of each element. -/
def jsSortValues (xs : List Jv) : List Jv :=
  sortByKey jsString xs

/-! ### Types & interfaces (source section 1)

`operator`, `joinType` and `classification` are string-literal unions in the
source and are modelled as strings. -/

/-- A WHERE-clause condition (`Condition` in the source). -/
structure Condition where
  column : String
  operator : String
  value : Jv
deriving Repr, DecidableEq

/-- A structural equi-join condition (`JoinCondition` in the source). -/
structure JoinCondition where
  leftTable : String
  leftColumn : String
  rightTable : String
  rightColumn : String
  joinType : String
deriving Repr, DecidableEq

/-- One ORDER BY item. -/
structure OrderByItem where
  column : String
  order : String
deriving Repr, DecidableEq

/-- `TableAccess` in the source; optional fields model `?:` members
(`none` is `undefined`). -/
structure TableAccess where
  table : String
  «alias» : Option String
  columns : List String
  conditions : Option (List Condition)
  joinConditions : Option (List JoinCondition)
deriving Repr, DecidableEq

/-- `CacheKey` in the source. -/
structure CacheKey where
  tables : List TableAccess
  fingerprint : String
  classification : String
  normalizedSQL : Option String
  orderBy : Option (List OrderByItem)
  limit : Option Int
  offset : Option Int
  distinct : Option Bool
  hasSubquery : Option Bool
  setOperation : Option String
deriving Repr, DecidableEq

/-- `InvalidationInfo` in the source (the spec calls it `WriteInfo`). -/
structure InvalidationInfo where
  table : String
  operation : String
  affectedRows : Option (List String)
  modifiedColumns : Option (List String)
  conditions : Option (List Condition)
deriving Repr, DecidableEq

/-! ### SHA-256 (`createHash("sha256")` from `node:crypto`)

Implemented from FIPS 180-4 over 32-bit words as `Nat % 2^32`. -/

/-- Addition modulo `2^32`. -/
def add32 (a b : Nat) : Nat := (a + b) % 4294967296

/-- Right rotation of a 32-bit word. -/
def rotr32 (r n : Nat) : Nat := ((n >>> r) ||| (n <<< (32 - r))) % 4294967296

/-- Bitwise complement of a 32-bit word. -/
def not32 (n : Nat) : Nat := n ^^^ 4294967295

def bsig0 (x : Nat) : Nat := rotr32 2 x ^^^ rotr32 13 x ^^^ rotr32 22 x
def bsig1 (x : Nat) : Nat := rotr32 6 x ^^^ rotr32 11 x ^^^ rotr32 25 x
def ssig0 (x : Nat) : Nat := rotr32 7 x ^^^ rotr32 18 x ^^^ (x >>> 3)
def ssig1 (x : Nat) : Nat := rotr32 17 x ^^^ rotr32 19 x ^^^ (x >>> 10)
def chFn (x y z : Nat) : Nat := (x &&& y) ^^^ (not32 x &&& z)
def majFn (x y z : Nat) : Nat := (x &&& y) ^^^ (x &&& z) ^^^ (y &&& z)

/-- The 64 SHA-256 round constants. -/
def sha256K : List Nat :=
  [1116352408, 1899447441, 3049323471, 3921009573, 961987163, 1508970993,
   2453635748, 2870763221, 3624381080, 310598401, 607225278, 1426881987,
   1925078388, 2162078206, 2614888103, 3248222580, 3835390401, 4022224774,
   264347078, 604807628, 770255983, 1249150122, 1555081692, 1996064986,
   2554220882, 2821834349, 2952996808, 3210313671, 3336571891, 3584528711,
   113926993, 338241895, 666307205, 773529912, 1294757372, 1396182291,
   1695183700, 1986661051, 2177026350, 2456956037, 2730485921, 2820302411,
   3259730800, 3345764771, 3516065817, 3600352804, 4094571909, 275423344,
   430227734, 506948616, 659060556, 883997877, 958139571, 1322822218,
   1537002063, 1747873779, 1955562222, 2024104815, 2227730452, 2361852424,
   2428436474, 2756734187, 3204031479, 3329325298]

/-- The SHA-256 initial hash value. -/
def sha256init : List Nat :=
  [1779033703, 3144134277, 1013904242, 2773480762,
   1359893119, 2600822924, 528734635, 1541459225]

/-- UTF-8 encoding of one character. -/
def utf8Char (c : Char) : List Nat :=
  let n := c.toNat
  if n < 0x80 then [n]
  else if n < 0x800 then [0xc0 + n / 0x40, 0x80 + n % 0x40]
  else if n < 0x10000 then
    [0xe0 + n / 0x1000, 0x80 + (n / 0x40) % 0x40, 0x80 + n % 0x40]
  else
    [0xf0 + n / 0x40000, 0x80 + (n / 0x1000) % 0x40, 0x80 + (n / 0x40) % 0x40,
     0x80 + n % 0x40]

/-- UTF-8 bytes of a string. -/
def utf8Bytes (s : String) : List Nat :=
  s.data.foldr (fun c acc => utf8Char c ++ acc) []

/-- SHA-256 message padding. -/
def sha256pad (msg : List Nat) : List Nat :=
  let bitLen := msg.length * 8
  let withOne := msg ++ [0x80]
  let zeros := (64 - (withOne.length + 8) % 64) % 64
  withOne ++ List.replicate zeros 0 ++
    (List.range 8).map (fun i => (bitLen >>> ((7 - i) * 8)) % 256)

/-- Splits a byte list into 64-byte blocks; the fuel argument (instantiated
with the list length) keeps the recursion structural. -/
def chunk64 : Nat → List Nat → List (List Nat)
  | 0, _ => []
  | _, [] => []
  | fuel + 1, l => l.take 64 :: chunk64 fuel (l.drop 64)

/-- SHA-256 compression of one 64-byte block into the running hash. -/
def sha256block (hs : List Nat) (block : List Nat) : List Nat :=
  let w16 := (List.range 16).map (fun i =>
    (block.getD (4 * i) 0) * 16777216 + (block.getD (4 * i + 1) 0) * 65536 +
      (block.getD (4 * i + 2) 0) * 256 + block.getD (4 * i + 3) 0)
  let w := (List.range 48).foldl (fun w _ =>
    let n := w.length
    w ++ [add32 (add32 (ssig1 (w.getD (n - 2) 0)) (w.getD (n - 7) 0))
            (add32 (ssig0 (w.getD (n - 15) 0)) (w.getD (n - 16) 0))]) w16
  let final := (List.range 64).foldl (fun st t =>
    match st with
    | [a, b, c, d, e, f, g, h] =>
      let t1 := add32 (add32 (add32 h (bsig1 e))
        (add32 (chFn e f g) (sha256K.getD t 0))) (w.getD t 0)
      let t2 := add32 (bsig0 a) (majFn a b c)
      [add32 t1 t2, a, b, c, add32 d t1, e, f, g]
    | st => st) hs
  List.zipWith add32 hs final

/-- One hexadecimal digit. -/
def hexDigit (d : Nat) : Char := "0123456789abcdef".data.getD d '0'

/-- Lower-case hexadecimal rendering of a 32-bit word. -/
def hex32 (n : Nat) : String :=
  String.mk ((List.range 8).map (fun i => hexDigit ((n >>> ((7 - i) * 4)) % 16)))

/-- `createHash("sha256").update(s).digest("hex")`. -/
def sha256hex (s : String) : String :=
  let padded := sha256pad (utf8Bytes s)
  let blocks := chunk64 padded.length padded
  String.join ((blocks.foldl sha256block sha256init).map hex32)

/-! ### JSON serialization (`JSON.stringify`) -/

/-- JSON escaping of one character. -/
def jsonEscapeChar (c : Char) : String :=
  if c = '"' then "\\\""
  else if c = '\\' then "\\\\"
  else if c = '\n' then "\\n"
  else if c = '\r' then "\\r"
  else if c = '\t' then "\\t"
  else if c.toNat < 32 then
    "\\u00" ++ String.mk [hexDigit (c.toNat / 16), hexDigit (c.toNat % 16)]
  else String.singleton c

/-- JSON escaping of a string body. -/
def jsonEscape (s : String) : String :=
  s.data.foldl (fun acc c => acc ++ jsonEscapeChar c) ""

mutual

/-- `JSON.stringify` on the modelled values.  Object keys keep insertion
order, as in JavaScript; `undefined`-valued keys never occur because the
builders below omit them. -/
def jsonStringify : Jv → String
  | .null => "null"
  | .bool true => "true"
  | .bool false => "false"
  | .num n => toString n
  | .str s => "\"" ++ jsonEscape s ++ "\""
  | .arr xs => "[" ++ jsonArrBody xs ++ "]"
  | .obj fs => "\x7b" ++ jsonObjBody fs ++ "\x7d"

def jsonArrBody : List Jv → String
  | [] => ""
  | [x] => jsonStringify x
  | x :: y :: rest => jsonStringify x ++ "," ++ jsonArrBody (y :: rest)

def jsonObjBody : List (String × Jv) → String
  | [] => ""
  | [(k, v)] => "\"" ++ jsonEscape k ++ "\":" ++ jsonStringify v
  | (k, v) :: p :: rest =>
    "\"" ++ jsonEscape k ++ "\":" ++ jsonStringify v ++ "," ++ jsonObjBody (p :: rest)

end

/-! ### Query classification (source section 5) -/

/-- `hasSimplePKCondition`: an equality or `IN` condition on a column named
`id` or `uuid` (case-insensitive). -/
def hasSimplePKCondition (conditions : List Condition) : Bool :=
  conditions.any (fun c =>
    (strLower c.column = "id" ∨ strLower c.column = "uuid") ∧
    (c.operator = "=" ∨ c.operator = "IN"))

/-- `classifyQuery`. -/
def classifyQuery (tables : List TableAccess) (conditions : List Condition)
    (hasAggregates hasSubquery hasSetOperation : Bool) : String :=
  if hasSetOperation then "complex"
  else if hasSubquery then "complex"
  else if hasAggregates then "aggregate"
  else if tables.length > 1 then "join"
  else if hasSimplePKCondition conditions then "row-lookup"
  else "complex"

/-! ### Cache key generation (source section 6) -/

/-- `sortIfNeeded` on string arrays (selected columns): length ≤ 1 is
returned as-is, length 2 is swapped with the JavaScript `>` comparison, and
longer arrays use the default sort. -/
def sortIfNeededStr : List String → List String
  | [] => []
  | [a] => [a]
  | [a, b] => if strLtB b a then [b, a] else [a, b]
  | a :: b :: c :: rest => sortByKey id (a :: b :: c :: rest)

/-- `sortIfNeeded` on condition-value arrays.  The length-2 case uses the
JavaScript relational `>` (numeric unless both sides are strings); longer
arrays use the default sort, which compares string conversions. -/
def sortIfNeededJv : List Jv → List Jv
  | [] => []
  | [a] => [a]
  | [a, b] => if jsGt a b then [b, a] else [a, b]
  | a :: b :: c :: rest => jsSortValues (a :: b :: c :: rest)

/-- A condition value inside the canonical record: list values are sorted
with `sortIfNeeded`, everything else is kept. -/
def normValue (v : Jv) : Jv :=
  match v with
  | .arr xs => .arr (sortIfNeededJv xs)
  | v => v

/-- The canonical form of a table's condition list: map each condition to
its three retained fields, then stable-sort by column name
(`localeCompare` on the plain identifiers appearing here is the string
comparison). -/
def normConditions (conds : List Condition) : Jv :=
  let mapped := conds.map (fun c => (c.column, c.operator, normValue c.value))
  let sorted := sortByKey (fun x => x.1) mapped
  .arr (sorted.map (fun x =>
    .obj [("column", .str x.1), ("operator", .str x.2.1), ("value", x.2.2)]))

/-- The canonical form of a table's join-condition list, stable-sorted by
`leftTable`. -/
def normJoinConditions (jcs : List JoinCondition) : Jv :=
  let sorted := sortByKey (fun jc => jc.leftTable) jcs
  .arr (sorted.map (fun jc =>
    .obj [("leftTable", .str jc.leftTable), ("leftColumn", .str jc.leftColumn),
          ("rightTable", .str jc.rightTable), ("rightColumn", .str jc.rightColumn),
          ("joinType", .str jc.joinType)]))

/-- The canonical form of one table inside the hashed record.  Keys follow
the source's object-literal insertion order; keys whose value is
`undefined` are omitted, as `JSON.stringify` drops them. -/
def normTable (t : TableAccess) : Jv :=
  .obj ([("table", .str t.table),
         ("columns", .arr ((sortIfNeededStr t.columns).map .str))]
    ++ (match t.conditions with
        | none => []
        | some cs => [("conditions", normConditions cs)])
    ++ (match t.joinConditions with
        | none => []
        | some jcs => [("joinConditions", normJoinConditions jcs)]))

/-- The canonical record hashed by the structural fingerprint. -/
def normRecord (k : CacheKey) : Jv :=
  .obj ([("tables", .arr (k.tables.map normTable)),
         ("classification", .str k.classification)]
    ++ (match k.orderBy with
        | none => []
        | some obs => [("orderBy", .arr (obs.map (fun ob =>
            .obj [("column", .str ob.column), ("order", .str ob.order)])))])
    ++ (match k.limit with | none => [] | some n => [("limit", .num n)])
    ++ (match k.offset with | none => [] | some n => [("offset", .num n)])
    ++ (match k.distinct with | none => [] | some b => [("distinct", .bool b)])
    ++ (match k.hasSubquery with | none => [] | some b => [("hasSubquery", .bool b)])
    ++ (match k.setOperation with | none => [] | some s => [("setOperation", .str s)]))

/-- The human-readable branch of `generateFingerprint` for one table:
`table.conditions?.find(...)` on the primary-key predicate, rendered as
`"{table}:{col}={value}:row-lookup"`; `IN` list values are sorted with the
default sort and comma-joined.  The search does not require the primary-key
condition to be the only condition of the table. -/
def pkHumanFingerprint (table : TableAccess) : Option String :=
  match table.conditions with
  | none => none
  | some conds =>
    match conds.find? (fun c =>
        (strLower c.column = "id" ∨ strLower c.column = "uuid") ∧
        (c.operator = "=" ∨ c.operator = "IN")) with
    | none => none
    | some pk =>
      let valueStr :=
        if pk.operator = "IN" then
          match pk.value with
          | .arr xs => String.intercalate "," ((jsSortValues xs).map jsString)
          | v => jsString v
        else jsString pk.value
      some (table.table ++ ":" ++ pk.column ++ "=" ++ valueStr ++ ":row-lookup")

/-- `generateFingerprint`.  The guard on the human-readable branch tests
JavaScript falsiness of the optional fields (`0`, `false` and `""` count as
unset). -/
def generateFingerprint (k : CacheKey) : String :=
  let human : Option String :=
    if k.classification = "row-lookup" ∧ k.tables.length = 1 ∧
       k.orderBy = none ∧ (k.limit = none ∨ k.limit = some 0) ∧
       (k.offset = none ∨ k.offset = some 0) ∧
       (k.distinct = none ∨ k.distinct = some false) ∧
       (k.hasSubquery = none ∨ k.hasSubquery = some false) ∧
       (k.setOperation = none ∨ k.setOperation = some "") then
      (k.tables.head?).bind pkHumanFingerprint
    else none
  match human with
  | some s => s
  | none => strTake (sha256hex (jsonStringify (normRecord k))) 16

/-! ### Invalidation matching (source section 8) -/

/-- `rowsOverlap`: whether a write's affected row ids may intersect the rows
selected by the cached query's first table. -/
def rowsOverlap (cacheKey : CacheKey) (affectedRows : List String) : Bool :=
  match cacheKey.tables.head? with
  | none => true
  | some table =>
    match table.conditions with
    | none => true
    | some conds =>
      let specificConditions := conds.filter (fun c =>
        c.operator = "=" ∨ c.operator = "IN")
      if specificConditions.isEmpty then true
      else specificConditions.any (fun c =>
        if c.operator = "=" then affectedRows.contains (jsString c.value)
        else
          match c.value with
          | .arr vs => (vs.map jsString).any (fun r => affectedRows.contains r)
          | _ => false)

/-- `col.split("(")[1]?.split(")")[0]`: the text between the first `(` and
the following `)`, used to strip aggregate wrappers like `COUNT(id)`. -/
def baseColumnOf (col : String) : String :=
  if col.data.contains '(' then
    (splitOnStr ((splitOnStr col "(").getD 1 "") ")").headD ""
  else col

/-- `columnsOverlap`: `SELECT *` always overlaps; otherwise some selected
column (with aggregate wrappers stripped) is among the modified columns.
An empty stripped name is falsy and never matches. -/
def columnsOverlap (selectedColumns modifiedColumns : List String) : Bool :=
  if selectedColumns.contains "*" then true
  else selectedColumns.any (fun sc =>
    let baseColumn := baseColumnOf sc
    if baseColumn = "" then false else modifiedColumns.contains baseColumn)

/-- `Map.set`: overwrite an existing binding or append a new one. -/
def mapSet (m : List (String × String)) (k v : String) : List (String × String) :=
  if m.any (fun p => p.1 = k) then m.map (fun p => if p.1 = k then (k, v) else p)
  else m ++ [(k, v)]

/-- `Map.get`: `none` models `undefined`. -/
def mapGet (m : List (String × String)) (k : String) : Option String :=
  (m.find? (fun p => p.1 = k)).map (·.2)

/-- `affectsJoinConditions`: whether a modified column participates in a
join condition whose side resolves (via the alias map of the cached tables)
to the written table. -/
def affectsJoinConditions (cacheKey : CacheKey) (modifiedTable : String)
    (modifiedColumns : List String) : Bool :=
  match cacheKey.tables.head? with
  | none => false
  | some t0 =>
    match t0.joinConditions with
    | none => false
    | some [] => false
    | some joinConditions =>
      let tableMap := cacheKey.tables.foldl (fun m t =>
        let m := mapSet m t.table t.table
        match t.alias with
        | some a => if a = "" then m else mapSet m a t.table
        | none => m) []
      joinConditions.any (fun jc =>
        let leftResolved := (mapGet tableMap jc.leftTable).getD jc.leftTable
        let rightResolved := (mapGet tableMap jc.rightTable).getD jc.rightTable
        (leftResolved = modifiedTable ∧ modifiedColumns.contains jc.leftColumn) ∨
        (rightResolved = modifiedTable ∧ modifiedColumns.contains jc.rightColumn))

/-- `isNumeric` inside `rangesOverlap`: a number, or a string whose
`Number(...)` conversion is not `NaN`. -/
def isNumericJs (v : Jv) : Bool :=
  match v with
  | .num _ => true
  | .str s => (strToNum s).isSome
  | _ => false

/-- `getNumValue` inside `rangesOverlap`: numeric value of a number, a
numeric string, or an AST node `{type:..., value: number|string}`;
`none` models the `null` result. -/
def getNumValue (v : Jv) : Option Int :=
  match v with
  | .num n => some n
  | .str s => strToNum s
  | .obj fields =>
    match fields.find? (fun p => p.1 = "value") with
    | some (_, Jv.num n) => some n
    | some (_, Jv.str s) => strToNum s
    | _ => none
  | _ => none

/-- Is the value an array (`Array.isArray`)? -/
def isArrJv : Jv → Bool
  | .arr _ => true
  | _ => false

/-- The elements of an array value. -/
def arrVals : Jv → List Jv
  | .arr xs => xs
  | _ => []

/-- Minimum of a list of integers (`Math.min(...)`), `none` on empty. -/
def listMin : List Int → Option Int
  | [] => none
  | x :: xs => some (xs.foldl min x)

/-- Maximum of a list of integers (`Math.max(...)`), `none` on empty. -/
def listMax : List Int → Option Int
  | [] => none
  | x :: xs => some (xs.foldl max x)

/-- The outcome of one side's range extraction inside `rangesOverlap`:
either an early return fired within the `IN` handling, or a (possibly
one-sided) numeric range with inclusivity flags. -/
inductive RangeSpec where
  | early (b : Bool)
  | range (lo hi : Option Int) (loIncl hiIncl : Bool)

/-- Range extraction from `cond1` (the first operator chain of
`rangesOverlap`), including the early returns of its `IN` branch against an
equality or `IN` on the other side. -/
def extractRange1 (cond1 cond2 : Condition) : RangeSpec :=
  if cond1.operator = "=" ∧ isNumericJs cond1.value then
    .range (getNumValue cond1.value) (getNumValue cond1.value) true true
  else if cond1.operator = ">" ∧ isNumericJs cond1.value then
    .range (getNumValue cond1.value) none false true
  else if cond1.operator = ">=" ∧ isNumericJs cond1.value then
    .range (getNumValue cond1.value) none true true
  else if cond1.operator = "<" ∧ isNumericJs cond1.value then
    .range none (getNumValue cond1.value) true false
  else if cond1.operator = "<=" ∧ isNumericJs cond1.value then
    .range none (getNumValue cond1.value) true true
  else if cond1.operator = "BETWEEN" then
    match cond1.value with
    | .arr [v0, v1] => .range (getNumValue v0) (getNumValue v1) true true
    | _ => .range none none true true
  else if cond1.operator = "IN" then
    match cond1.value with
    | .arr xs =>
      let numValues := xs.filterMap getNumValue
      if numValues.isEmpty then .range none none true true
      else if cond2.operator = "=" ∧ isNumericJs cond2.value then
        .early (match getNumValue cond2.value with
                | some v2 => numValues.contains v2
                | none => false)
      else if cond2.operator = "IN" ∧ isArrJv cond2.value then
        .early (numValues.any (fun v =>
          ((arrVals cond2.value).filterMap getNumValue).contains v))
      else .range (listMin numValues) (listMax numValues) true true
    | _ => .range none none true true
  else .range none none true true

/-- Range extraction from `cond2` (the second operator chain of
`rangesOverlap`).  Its `IN` branch's equality early-return is kept for
fidelity although the top fast path already intercepts that pairing. -/
def extractRange2 (cond1 cond2 : Condition) : RangeSpec :=
  if cond2.operator = "=" ∧ isNumericJs cond2.value then
    .range (getNumValue cond2.value) (getNumValue cond2.value) true true
  else if cond2.operator = ">" ∧ isNumericJs cond2.value then
    .range (getNumValue cond2.value) none false true
  else if cond2.operator = ">=" ∧ isNumericJs cond2.value then
    .range (getNumValue cond2.value) none true true
  else if cond2.operator = "<" ∧ isNumericJs cond2.value then
    .range none (getNumValue cond2.value) true false
  else if cond2.operator = "<=" ∧ isNumericJs cond2.value then
    .range none (getNumValue cond2.value) true true
  else if cond2.operator = "BETWEEN" then
    match cond2.value with
    | .arr [v0, v1] => .range (getNumValue v0) (getNumValue v1) true true
    | _ => .range none none true true
  else if cond2.operator = "IN" then
    match cond2.value with
    | .arr xs =>
      let numValues := xs.filterMap getNumValue
      if numValues.isEmpty then .range none none true true
      else if cond1.operator = "=" ∧ isNumericJs cond1.value then
        .early (match getNumValue cond1.value with
                | some v1 => numValues.contains v1
                | none => false)
      else .range (listMin numValues) (listMax numValues) true true
    | _ => .range none none true true
  else .range none none true true

/-- The tail of `rangesOverlap` once both range extractions have run: an
early result is returned as-is, and two ranges are compared with the
endpoint rules (no bound at all on either side means no disjointness
proof). -/
def rangesOverlapSlow : RangeSpec → RangeSpec → Bool
  | .early b, _ => b
  | .range _ _ _ _, .early b => b
  | .range c1Min c1Max c1MinIncl c1MaxIncl,
    .range c2Min c2Max c2MinIncl c2MaxIncl =>
    if c1Min = none ∧ c1Max = none ∧ c2Min = none ∧ c2Max = none then true
    else
      let disjointLow : Bool :=
        match c1Max, c2Min with
        | some b, some c =>
          decide (b < c) || (decide (b = c) && !(c1MaxIncl && c2MinIncl))
        | _, _ => false
      let disjointHigh : Bool :=
        match c1Min, c2Max with
        | some a, some d =>
          decide (d < a) || (decide (a = d) && !(c1MinIncl && c2MaxIncl))
        | _, _ => false
      if disjointLow || disjointHigh then false else true

/-- `rangesOverlap`: true unless the two conditions on one column are
provably non-overlapping.  The fast paths compare with strict equality
(`===`) and `includes`; the slow path extracts numeric ranges and applies
the endpoint rules. -/
def rangesOverlap (cond1 cond2 : Condition) : Bool :=
  if cond1.column ≠ cond2.column then true
  else if cond1.operator = "=" ∧ cond2.operator = "=" then
    jsStrictEq cond1.value cond2.value
  else if cond1.operator = "IN" ∧ cond2.operator = "=" ∧ isArrJv cond1.value then
    jsIncludes (arrVals cond1.value) cond2.value
  else if cond2.operator = "IN" ∧ cond1.operator = "=" ∧ isArrJv cond2.value then
    jsIncludes (arrVals cond2.value) cond1.value
  else
    rangesOverlapSlow (extractRange1 cond1 cond2) (extractRange2 cond1 cond2)

/-- `conditionsOverlap`: group both sides by column; if some shared column
has no overlapping condition pair, the sets are provably disjoint. -/
def groupByColumn (conds : List Condition) : List (String × List Condition) :=
  conds.foldl (fun acc c =>
    if acc.any (fun g => g.1 = c.column) then
      acc.map (fun g => if g.1 = c.column then (g.1, g.2 ++ [c]) else g)
    else acc ++ [(c.column, [c])]) []

/-- `conditionsOverlap` (conservative: true unless disjointness is proved
on some shared column). -/
def conditionsOverlap (cacheConditions writeConditions : List Condition) : Bool :=
  let cacheByColumn := groupByColumn cacheConditions
  let writeByColumn := groupByColumn writeConditions
  cacheByColumn.all (fun g =>
    match writeByColumn.find? (fun h => h.1 = g.1) with
    | none => true
    | some h =>
      if h.2.isEmpty then true
      else g.2.any (fun cacheCond => h.2.any (fun writeCond =>
        rangesOverlap cacheCond writeCond)))

/-- `shouldInvalidate`: the invalidation decider. -/
def shouldInvalidate (cacheKey : CacheKey) (writeInfo : InvalidationInfo) : Bool :=
  match cacheKey.tables.find? (fun t => t.table = writeInfo.table) with
  | none => false
  | some affectedTable =>
    if writeInfo.operation = "INSERT" then
      -- both arms of the source's INSERT analysis return true
      if cacheKey.classification = "aggregate" ∨ cacheKey.classification = "join" ∨
         affectedTable.conditions = none ∨ affectedTable.conditions = some [] then
        true
      else true
    else if writeInfo.operation = "DELETE" then
      if cacheKey.classification = "aggregate" ∨ cacheKey.classification = "join" then
        true
      else
        let rangeProvedDisjoint : Bool :=
          match writeInfo.conditions, affectedTable.conditions with
          | some wconds, some cconds =>
            decide (0 < cconds.length) && !(conditionsOverlap cconds wconds)
          | _, _ => false
        if rangeProvedDisjoint then false
        else
          match writeInfo.affectedRows, affectedTable.conditions with
          | some rows, some _ => rowsOverlap cacheKey rows
          | _, _ => true
    else
      match writeInfo.modifiedColumns with
      | some modifiedColumns =>
        let hasColumnOverlap := columnsOverlap affectedTable.columns modifiedColumns
        let hasJoinOverlap :=
          decide (cacheKey.classification = "join") &&
          affectsJoinConditions cacheKey writeInfo.table modifiedColumns
        if ¬(hasColumnOverlap = true ∨ hasJoinOverlap = true) then false
        else
          let rangeProvedDisjoint : Bool :=
            match writeInfo.conditions, affectedTable.conditions with
            | some wconds, some cconds =>
              decide (0 < wconds.length) && decide (0 < cconds.length) &&
              !(conditionsOverlap cconds wconds)
            | _, _ => false
          if rangeProvedDisjoint then false
          else if cacheKey.classification = "join" ∧
              (hasJoinOverlap = true ∨ hasColumnOverlap = true) then
            match writeInfo.affectedRows, affectedTable.conditions with
            | some rows, some _ =>
              if ¬(rowsOverlap cacheKey rows = true) then false else true
            | _, _ => true
          else if hasColumnOverlap then
            match writeInfo.affectedRows, affectedTable.conditions with
            | some rows, some _ => rowsOverlap cacheKey rows
            | _, _ => true
          else false
      | none =>
        let rangeProvedDisjoint : Bool :=
          match writeInfo.conditions, affectedTable.conditions with
          | some wconds, some cconds =>
            decide (0 < wconds.length) && decide (0 < cconds.length) &&
            !(conditionsOverlap cconds wconds)
          | _, _ => false
        if rangeProvedDisjoint then false
        else
          match writeInfo.affectedRows, affectedTable.conditions with
          | some rows, some _ => rowsOverlap cacheKey rows
          | _, _ => true

/-! ### SQLite storage (source section 9)

The five tables of the schema become association lists.  The in-process LRU
`Map` becomes a list of key/value pairs in insertion order: `Map.set` on a
fresh key appends, `Map.delete` removes, and evicting the oldest entry drops
the head.  Stored `result` and `cache_key` columns hold JSON text in the
source; `JSON.parse ∘ JSON.stringify` is the identity on the modelled
values, so entries keep the values themselves. -/

/-- One row of `cache_entries`. -/
structure StoredEntry where
  fingerprint : String
  result : Jv
  cacheKey : CacheKey
  createdAt : Int
deriving Repr, DecidableEq

/-- The cache store state: the five SQLite tables plus the LRU front. -/
structure Store where
  cacheEntries : List StoredEntry
  tableIndex : List (String × String)
  rowIndex : List (String × String × String)
  columnIndex : List (String × String × String)
  aggregateIndex : List (String × String)
  lru : List (String × Jv)
deriving Repr, DecidableEq

/-- The freshly initialised store (`initDB` creates empty tables). -/
def emptyStore : Store := ⟨[], [], [], [], [], []⟩

/-- `LRU_MAX_SIZE`. -/
def LRU_MAX_SIZE : Nat := 1000

/-- Row lookup by primary key in `cache_entries`. -/
def lookupEntry (s : Store) (fp : String) : Option StoredEntry :=
  s.cacheEntries.find? (fun e => e.fingerprint = fp)

/-- `INSERT OR REPLACE`: drop any row with the same primary key and insert
the new row. -/
def upsertEntry (e : StoredEntry) (l : List StoredEntry) : List StoredEntry :=
  l.filter (fun e' => e'.fingerprint ≠ e.fingerprint) ++ [e]

/-- `INSERT OR IGNORE` into an index table with a composite primary key
covering all columns. -/
def insertIgnore {α : Type} [DecidableEq α] (l : List α) (x : α) : List α :=
  if x ∈ l then l else l ++ [x]

/-- LRU lookup (`Map.get`; stored values are never `undefined`). -/
def lruLookup (lru : List (String × Jv)) (fp : String) : Option Jv :=
  (lru.find? (fun p => p.1 = fp)).map (·.2)

/-- The row-index inserts of `register` for one cached table: only when a
simple primary-key condition is present; the row-id condition is then
looked up without re-checking its operator, as in the source. -/
def registerRows (fingerprint tbl : String)
    (conditions : Option (List Condition)) (s : Store) : Store :=
  match conditions with
  | some conds =>
    if hasSimplePKCondition conds then
      match conds.find? (fun c =>
          strLower c.column = "id" ∨ strLower c.column = "uuid") with
      | some pkCond =>
        let rowIds :=
          if pkCond.operator = "IN" ∧ isArrJv pkCond.value then arrVals pkCond.value
          else [pkCond.value]
        { s with rowIndex := rowIds.foldl (fun idx rowId =>
            insertIgnore idx (tbl, jsString rowId, fingerprint)) s.rowIndex }
      | none => s
    else s
  | none => s

/-- The column-index inserts of `register` for one cached table: one row
per selected column with aggregate wrappers stripped, unless `*` is
selected. -/
def registerCols (fingerprint tbl : String) (columns : List String)
    (s : Store) : Store :=
  if columns.contains "*" then s
  else
    { s with columnIndex := columns.foldl (fun idx col =>
        insertIgnore idx (tbl, baseColumnOf col, fingerprint)) s.columnIndex }

/-- The aggregate-index insert of `register` for one cached table, when the
key is classified `aggregate`. -/
def registerAgg (fingerprint : String) (cacheKey : CacheKey) (tbl : String)
    (s : Store) : Store :=
  if cacheKey.classification = "aggregate" then
    { s with aggregateIndex := insertIgnore s.aggregateIndex (tbl, fingerprint) }
  else s

/-- The per-table index inserts performed by `register` for one cached
table, in the source's order: table index always, then row index, column
index, and aggregate index. -/
def registerTable (fingerprint : String) (cacheKey : CacheKey)
    (t : TableAccess) (s : Store) : Store :=
  registerAgg fingerprint cacheKey t.table
    (registerCols fingerprint t.table t.columns
      (registerRows fingerprint t.table t.conditions
        { s with tableIndex := insertIgnore s.tableIndex (t.table, fingerprint) }))

/-- `CacheManager.register`: upsert the cache entry, then insert the index
rows for every cached table, all in one transaction.  The LRU front is not
touched. -/
def register (now : Int) (fingerprint : String) (result : Jv)
    (cacheKey : CacheKey) (s : Store) : Store :=
  let s := { s with
    cacheEntries := upsertEntry ⟨fingerprint, result, cacheKey, now⟩ s.cacheEntries }
  cacheKey.tables.foldl (fun s t => registerTable fingerprint cacheKey t s) s

/-- `CacheManager.get`: LRU first; on miss load the row, put the
deserialized result into the LRU (evicting the oldest entry past capacity)
and return it; `Jv.null` models the `null` returned when no row exists. -/
def get (fingerprint : String) (s : Store) : Jv × Store :=
  match lruLookup s.lru fingerprint with
  | some cached => (cached, s)
  | none =>
    match lookupEntry s fingerprint with
    | none => (Jv.null, s)
    | some e =>
      let lru := s.lru ++ [(fingerprint, e.result)]
      let lru := if LRU_MAX_SIZE < lru.length then lru.drop 1 else lru
      (e.result, { s with lru := lru })

/-- `CacheManager.findAffectedFingerprints`: candidate enumeration over the
secondary indexes.  A `Set` in the source; modelled as a duplicate-free
list in insertion order. -/
def findAffectedFingerprints (writeInfo : InvalidationInfo) (s : Store) :
    List String :=
  let fps :=
    match writeInfo.affectedRows with
    | some rows =>
      if rows.isEmpty then
        (((s.tableIndex.filter (fun r => r.1 = writeInfo.table)).map (·.2)).foldl
          insertIgnore [])
      else
        let fps := (((s.rowIndex.filter (fun r =>
          r.1 = writeInfo.table ∧ rows.contains r.2.1)).map (·.2.2)).foldl
          insertIgnore [])
        let fps :=
          match writeInfo.modifiedColumns with
          | some cols =>
            if cols.isEmpty then fps
            else (((s.columnIndex.filter (fun r =>
              r.1 = writeInfo.table ∧ cols.contains r.2.1)).map (·.2.2)).foldl
              insertIgnore fps)
          | none => fps
        (((s.tableIndex.filter (fun r => r.1 = writeInfo.table)).map (·.2)).foldl
          insertIgnore fps)
    | none =>
      (((s.tableIndex.filter (fun r => r.1 = writeInfo.table)).map (·.2)).foldl
        insertIgnore [])
  if writeInfo.operation = "INSERT" ∨ writeInfo.operation = "DELETE" then
    (((s.aggregateIndex.filter (fun r => r.1 = writeInfo.table)).map (·.2)).foldl
      insertIgnore fps)
  else fps

/-- The batched deletes shared by `invalidate` and `clearTable`: remove the
chosen fingerprints from `cache_entries`, the four index tables, and the
LRU front. -/
def deleteFingerprints (fps : List String) (s : Store) : Store :=
  { cacheEntries := s.cacheEntries.filter (fun e => e.fingerprint ∉ fps)
    tableIndex := s.tableIndex.filter (fun r => r.2 ∉ fps)
    rowIndex := s.rowIndex.filter (fun r => r.2.2 ∉ fps)
    columnIndex := s.columnIndex.filter (fun r => r.2.2 ∉ fps)
    aggregateIndex := s.aggregateIndex.filter (fun r => r.2 ∉ fps)
    lru := s.lru.filter (fun p => p.1 ∉ fps) }

/-- The per-candidate test of `invalidate`: the candidate's stored cache
key is re-read and handed to the decider; candidates that disappeared are
skipped. -/
def shouldDelete (writeInfo : InvalidationInfo) (s : Store) (fp : String) : Bool :=
  match lookupEntry s fp with
  | some e => shouldInvalidate e.cacheKey writeInfo
  | none => false

/-- `CacheManager.invalidate`: enumerate candidates, re-read each stored
cache key, keep those the decider invalidates, batch-delete them and evict
them from the LRU; returns the number deleted. -/
def invalidate (writeInfo : InvalidationInfo) (s : Store) : Nat × Store :=
  let fingerprints := findAffectedFingerprints writeInfo s
  if fingerprints.isEmpty then (0, s)
  else
    let fingerprintsToDelete := fingerprints.filter (shouldDelete writeInfo s)
    if fingerprintsToDelete.isEmpty then (0, s)
    else (fingerprintsToDelete.length, deleteFingerprints fingerprintsToDelete s)

/-- `CacheManager.clearTable`: every fingerprint indexed under the table is
deleted with the same batch-delete and LRU eviction as `invalidate`. -/
def clearTable (tableName : String) (s : Store) : Nat × Store :=
  let fingerprints := (s.tableIndex.filter (fun r => r.1 = tableName)).map (·.2)
  if fingerprints.isEmpty then (0, s)
  else (fingerprints.length, deleteFingerprints fingerprints s)

/-- Store states reachable from the empty store by the mutating operations
named in the ownership claim (`register`, `invalidate`, `clearTable`). -/
inductive Reachable : Store → Prop where
  | empty : Reachable emptyStore
  | register (now : Int) (fp : String) (x : Jv) (k : CacheKey) (s : Store) :
      Reachable s → Reachable (register now fp x k s)
  | invalidate (w : InvalidationInfo) (s : Store) :
      Reachable s → Reachable (invalidate w s).2
  | clearTable (t : String) (s : Store) :
      Reachable s → Reachable (clearTable t s).2

/-! ### Parameter binding (source section 2) -/

/-- Bound parameters: a positional list or a named map. -/
inductive Params where
  | positional : List Jv → Params
  | named : List (String × Jv) → Params

/-- The `\s` character class (the whitespace the analyzed statements
contain). -/
def isWsChar (c : Char) : Bool :=
  c = ' ' ∨ c = '\t' ∨ c = '\n' ∨ c = '\r' ∨ c = '\x0b' ∨ c = '\x0c'

/-- A `\w` word character. -/
def isWordChar (c : Char) : Bool :=
  c.isAlphanum ∨ c = '_'

/-- Substring scan underlying `String.prototype.includes`. -/
def strContainsGo (sub : List Char) : Nat → List Char → Bool
  | 0, _ => false
  | fuel + 1, cs =>
    if sub.isPrefixOf cs then true
    else
      match cs with
      | [] => false
      | _ :: rest => strContainsGo sub fuel rest

/-- Substring test (`String.prototype.includes`). -/
def strContains (s sub : String) : Bool :=
  strContainsGo sub.data (s.data.length + 1) s.data

/-- `detectParamStyle`: `?`, `$N`, or `:name`, in that precedence. -/
def detectParamStyle (sql : String) : Option String :=
  if sql.data.contains '?' then some "?"
  else if ((sql.data.zip (sql.data.drop 1)).any fun p =>
      p.1 = '$' ∧ p.2.isDigit) then some "$1"
  else if ((sql.data.zip (sql.data.drop 1)).any fun p =>
      p.1 = ':' ∧ isWordChar p.2) then some ":name"
  else none

/-- Doubling of single quotes inside a SQL string literal. -/
def escapeQuotes (s : String) : String :=
  let quote := Char.ofNat 39
  s.data.foldl (fun acc c =>
    if c = quote then acc ++ "''" else acc ++ String.singleton c) ""

mutual

/-- `formatValue`: renders one bound value as a SQL literal.  Arrays become
comma-joined values, parenthesised unless already inside an `IN` clause;
`null` renders as `NULL`; strings are single-quoted with `'` doubled;
numbers and booleans render verbatim; anything else is stringified and
escaped. -/
def formatValue (value : Jv) (isInClause : Bool) : String :=
  match value with
  | .arr xs =>
    let formatted := formatValueList xs
    if isInClause then formatted else "(" ++ formatted ++ ")"
  | .null => "NULL"
  | .str s => "'" ++ escapeQuotes s ++ "'"
  | .num n => toString n
  | .bool true => "true"
  | .bool false => "false"
  | .obj fs => "'" ++ escapeQuotes (jsString (.obj fs)) ++ "'"

def formatValueList : List Jv → String
  | [] => ""
  | [x] => formatValue x false
  | x :: y :: rest => formatValue x false ++ "," ++ formatValueList (y :: rest)

end

/-- Match of the regex `IN\s*\(\s*\?\s*\)` (case-insensitive) at the head
of the character list: returns the matched text and the remainder. -/
def matchInQn (cs : List Char) : Option (List Char × List Char) :=
  match cs with
  | i :: n :: rest =>
    if (i = 'I' ∨ i = 'i') ∧ (n = 'N' ∨ n = 'n') then
      let ws1 := rest.takeWhile isWsChar
      match rest.dropWhile isWsChar with
      | '(' :: r2 =>
        let ws2 := r2.takeWhile isWsChar
        match r2.dropWhile isWsChar with
        | '?' :: r4 =>
          let ws3 := r4.takeWhile isWsChar
          match r4.dropWhile isWsChar with
          | ')' :: r6 =>
            some ([i, n] ++ ws1 ++ ['('] ++ ws2 ++ ['?'] ++ ws3 ++ [')'], r6)
          | _ => none
        | _ => none
      | _ => none
    else none
  | _ => none

/-- The global replace for the `?` parameter style: at each position the
`IN ( ? )` alternative is tried first, otherwise a bare `?`; once the
parameters are exhausted, remaining matches stay verbatim.  The fuel is the
input length (every step consumes at least one character). -/
def bindQs : Nat → List Jv → List Char → List Char
  | 0, _, cs => cs
  | _, _, [] => []
  | fuel + 1, ps, c :: rest =>
    match matchInQn (c :: rest) with
    | some (matched, rem) =>
      match ps with
      | [] => matched ++ bindQs fuel [] rem
      | p :: ps' => ("IN (" ++ formatValue p true ++ ")").data ++ bindQs fuel ps' rem
    | none =>
      if c = '?' then
        match ps with
        | [] => c :: bindQs fuel [] rest
        | p :: ps' => (formatValue p false).data ++ bindQs fuel ps' rest
      else c :: bindQs fuel ps rest

/-- The global replace for the `$N` style: `$` followed by digits is
1-indexed into the parameter list; a missing index keeps the literal text,
and `$0` hits the JavaScript `array[-1] = undefined`, rendered `NULL`. -/
def bindDollar : Nat → List Jv → List Char → List Char
  | 0, _, cs => cs
  | _, _, [] => []
  | fuel + 1, ps, c :: rest =>
    if c = '$' ∧ (rest.headD ' ').isDigit then
      let digits := rest.takeWhile Char.isDigit
      let rem := rest.dropWhile Char.isDigit
      let n := (digitsToNat digits).getD 0
      if n = 0 then "NULL".data ++ bindDollar fuel ps rem
      else if ps.length < n then (c :: digits) ++ bindDollar fuel ps rem
      else (formatValue (ps.getD (n - 1) .null) false).data ++ bindDollar fuel ps rem
    else c :: bindDollar fuel ps rest

/-- The global replace for the `:name` style: `:` followed by word
characters is substituted by name; unknown names keep the literal text. -/
def bindColon : Nat → List (String × Jv) → List Char → List Char
  | 0, _, cs => cs
  | _, _, [] => []
  | fuel + 1, ps, c :: rest =>
    if c = ':' ∧ isWordChar (rest.headD ' ') then
      let nameChars := rest.takeWhile isWordChar
      let rem := rest.dropWhile isWordChar
      let name := String.mk nameChars
      match ps.find? (fun p => p.1 = name) with
      | some p => (formatValue p.2 false).data ++ bindColon fuel ps rem
      | none => (c :: nameChars) ++ bindColon fuel ps rem
    else c :: bindColon fuel ps rest

/-- `bindParams`: inline bound parameters into the SQL text. -/
def bindParams (sql : String) (params : Option Params) : String :=
  match params with
  | none => sql
  | some params =>
    match detectParamStyle sql with
    | none => sql
    | some style =>
      if style = "?" then
        let paramArray :=
          match params with
          | .positional xs => xs
          | .named ps => ps.map (·.2)
        String.mk (bindQs sql.data.length paramArray sql.data)
      else if style = "$1" then
        let paramArray :=
          match params with
          | .positional xs => xs
          | .named ps => ps.map (·.2)
        String.mk (bindDollar sql.data.length paramArray sql.data)
      else
        let paramObj :=
          match params with
          | .positional xs =>
            (xs.enum.map fun p => ("param" ++ toString p.1, p.2))
          | .named ps => ps
        String.mk (bindColon sql.data.length paramObj sql.data)

/-! ### Query normalization (source section 3) -/

/-- `replace(/\s+/g, " ")`: collapse whitespace runs to single spaces. -/
def collapseWsGo : Bool → List Char → List Char
  | _, [] => []
  | inWs, c :: rest =>
    if isWsChar c then
      if inWs then collapseWsGo true rest else ' ' :: collapseWsGo true rest
    else c :: collapseWsGo false rest

/-- `replace(/\s*X\s*/g, repl)` for a single character `X`: drop the
whitespace around each occurrence and substitute the replacement text. -/
def replaceAround (target : Char) (repl : List Char) :
    Nat → List Char → List Char
  | 0, cs => cs
  | fuel + 1, cs =>
    let ws := cs.takeWhile isWsChar
    match cs.dropWhile isWsChar with
    | c :: r2 =>
      if c = target then repl ++ replaceAround target repl fuel (r2.dropWhile isWsChar)
      else ws ++ c :: replaceAround target repl fuel r2
    | [] => ws

/-- `replace(/`([a-zA-Z_]\w*)`/g, "$1")`: strip backticks around simple
identifiers. -/
def stripTicks : Nat → List Char → List Char
  | 0, cs => cs
  | _, [] => []
  | fuel + 1, c :: rest =>
    if c = '`' then
      let ident := rest.takeWhile isWordChar
      let rem := rest.dropWhile isWordChar
      match ident, rem with
      | i0 :: _, '`' :: rem2 =>
        if i0.isAlpha ∨ i0 = '_' then ident ++ stripTicks fuel rem2
        else c :: stripTicks fuel rest
      | _, _ => c :: stripTicks fuel rest
    else c :: stripTicks fuel rest

/-- An ORM-generated alias `t0`, `t1`, ... (`/^t\d+$/`). -/
def isOrmAlias (s : String) : Bool :=
  match s.data with
  | 't' :: rest => ¬rest.isEmpty ∧ rest.all Char.isDigit
  | _ => false

/-- `replace` of `\b{alias}\.` by `{table}.`: the boundary holds when the
previous character is not a word character. -/
def replaceAliasDot (aliasName table : String) :
    Nat → Bool → List Char → List Char
  | 0, _, cs => cs
  | _, _, [] => []
  | fuel + 1, prevWord, cs@(c :: rest) =>
    if ¬prevWord ∧ (aliasName.data ++ ['.']).isPrefixOf cs then
      table.data ++ '.' ::
        replaceAliasDot aliasName table fuel false
          (cs.drop (aliasName.data.length + 1))
    else c :: replaceAliasDot aliasName table fuel (isWordChar c) rest

/-- Match of `AS\s+{alias}` (case-insensitive) with a trailing word
boundary at the head of the list; returns the remainder. -/
def matchAsAlias (aliasName : String) (cs : List Char) : Option (List Char) :=
  match cs with
  | a :: s :: rest =>
    if (a = 'A' ∨ a = 'a') ∧ (s = 'S' ∨ s = 's') then
      let ws := rest.takeWhile isWsChar
      let r2 := rest.dropWhile isWsChar
      if ¬ws.isEmpty ∧ aliasName.data.isPrefixOf r2 then
        let r3 := r2.drop aliasName.data.length
        if isWordChar (r3.headD ' ') then none else some r3
      else none
    else none
  | _ => none

/-- `replace(/\bAS\s+{alias}\b/gi, "")`. -/
def removeAsAlias (aliasName : String) :
    Nat → Bool → List Char → List Char
  | 0, _, cs => cs
  | _, _, [] => []
  | fuel + 1, prevWord, cs@(c :: rest) =>
    match if prevWord then none else matchAsAlias aliasName cs with
    | some rem => removeAsAlias aliasName fuel prevWord rem
    | none => c :: removeAsAlias aliasName fuel (isWordChar c) rest

/-- Stable insertion by an integer key (the numeric comparator
`(a, b) => Number(a) - Number(b)`). -/
def insertByIntKey {α : Type} (key : α → Int) (x : α) : List α → List α
  | [] => [x]
  | y :: ys => if key y ≤ key x then y :: insertByIntKey key x ys else x :: y :: ys

/-- Stable sort by an integer key. -/
def sortByIntKey {α : Type} (key : α → Int) (l : List α) : List α :=
  l.foldl (fun acc x => insertByIntKey key x acc) []

/-- Match of `IN\s*\(([^)]+)\)` (case-insensitive) at the head: returns the
captured list text and the remainder after the closing parenthesis. -/
def matchInList (cs : List Char) : Option (List Char × List Char) :=
  match cs with
  | i :: n :: rest =>
    if (i = 'I' ∨ i = 'i') ∧ (n = 'N' ∨ n = 'n') then
      match rest.dropWhile isWsChar with
      | '(' :: r2 =>
        let content := r2.takeWhile (fun c => c ≠ ')')
        match content, r2.dropWhile (fun c => c ≠ ')') with
        | _ :: _, ')' :: r3 => some (content, r3)
        | _, _ => none
      | _ => none
    else none
  | _ => none

/-- `normalizeINClauses`: sort the contents of every `IN (...)` literal,
numerically when every comma-separated piece converts to a number (the
empty piece converts to `0`), lexicographically otherwise. -/
def normalizeINGo : Nat → List Char → List Char
  | 0, cs => cs
  | _, [] => []
  | fuel + 1, c :: rest =>
    match matchInList (c :: rest) with
    | some (content, rem) =>
      let nums := (splitOnStr (String.mk content) ",").map strTrim
      let allNumbers := nums.all (fun n => (strToNum n).isSome)
      let sorted :=
        if allNumbers then sortByIntKey (fun n => (strToNum n).getD 0) nums
        else sortByKey id nums
      ("IN (" ++ String.intercalate "," sorted ++ ")").data ++ normalizeINGo fuel rem
    | none => c :: normalizeINGo fuel rest

/-- `normalizeINClauses`. -/
def normalizeINClauses (sql : String) : String :=
  String.mk (normalizeINGo sql.data.length sql.data)

/-! ### AST extraction (source section 4)

The parser's AST is a dynamically-typed object graph, modelled by `Jv`;
the extractors inspect it by field name exactly as the source does.
Functions whose recursion follows looked-up field values (not structural
subterms) take a fuel argument instantiated with the node size. -/

mutual

/-- Size of a value, used as fuel for the recursive AST walkers (every
recursive call descends into a strictly smaller subvalue). -/
def jvSize : Jv → Nat
  | .null => 1
  | .bool _ => 1
  | .num _ => 1
  | .str _ => 1
  | .arr xs => 1 + jvSizeList xs
  | .obj fs => 1 + jvSizeObj fs

def jvSizeList : List Jv → Nat
  | [] => 0
  | x :: xs => jvSize x + jvSizeList xs

def jvSizeObj : List (String × Jv) → Nat
  | [] => 0
  | (_, v) :: fs => jvSize v + jvSizeObj fs

end

/-- Truthiness of a field (`obj.f` used as a condition). -/
def jvTruthyField (node : Jv) (f : String) : Bool :=
  match jvField node f with
  | some v => ¬jsFalsy v
  | none => false

/-- Key presence (`"f" in obj`). -/
def jvHasField (node : Jv) (f : String) : Bool :=
  match node with
  | .obj fs => fs.any (fun p => p.1 = f)
  | _ => false

/-- The values iterated by `Object.values` (array elements for arrays). -/
def jvChildren : Jv → List Jv
  | .obj fs => fs.map (·.2)
  | .arr xs => xs
  | _ => []

/-- Does `typeof v === "object" && v !== null` hold? -/
def isObjectLike : Jv → Bool
  | .obj _ => true
  | .arr _ => true
  | _ => false

/-- `extractColumnName`: the `column` field when it is a string (both
source branches return it), else `"unknown"`. -/
def extractColumnName (node : Jv) : String :=
  match jvField node "column" with
  | some (.str c) => c
  | _ => "unknown"

/-- `extractValue`: falsy input gives `null`; non-objects are returned
as-is; a node typed `"null"` gives `null`; otherwise a `value` field is
returned when present, else the node itself. -/
def extractValue (node : Jv) : Jv :=
  if jsFalsy node then .null
  else
    match node with
    | .obj fields =>
      if jvField node "type" = some (.str "null") then .null
      else
        match fields.find? (fun p => p.1 = "value") with
        | some (_, v) => v
        | none => node
    | v => v

/-- `parseConditionNode` (fuelled): flattens `AND`/`OR` by concatenation
and converts leaf expressions 1-to-1; non-object nodes contribute
nothing. -/
def parseConditionNodeF : Nat → Jv → List Condition
  | 0, _ => []
  | fuel + 1, node =>
    if ¬isObjectLike node then []
    else
      let typ := jvField node "type"
      let opStr : Option Jv → String := fun o =>
        match o with
        | some (.str s) => s
        | _ => "undefined"
      if typ = some (.str "binary_expr") then
        let op := opStr (jvField node "operator")
        if op = "AND" ∨ op = "OR" then
          parseConditionNodeF fuel ((jvField node "left").getD .null) ++
          parseConditionNodeF fuel ((jvField node "right").getD .null)
        else if op = "IN" ∨ op = "NOT IN" then
          let column := extractColumnName ((jvField node "left").getD .null)
          let values :=
            match jvField node "right" with
            | some r =>
              if jvField r "type" = some (.str "expr_list") then
                match jvField r "value" with
                | some (.arr vs) => vs.map extractValue
                | _ => []
              else []
            | none => []
          [⟨column, op, .arr values⟩]
        else if (op = "IS" ∨ op = "IS NOT") ∧
            (match jvField node "right" with
             | some r => jvField r "type" = some (.str "null")
             | none => false : Bool) then
          let column := extractColumnName ((jvField node "left").getD .null)
          [⟨column, if op = "IS" then "IS NULL" else "IS NOT NULL", .null⟩]
        else if op = "LIKE" ∨ op = "NOT LIKE" then
          let column := extractColumnName ((jvField node "left").getD .null)
          [⟨column, op, extractValue ((jvField node "right").getD .null)⟩]
        else
          [⟨extractColumnName ((jvField node "left").getD .null), op,
            extractValue ((jvField node "right").getD .null)⟩]
      else if typ = some (.str "between_expr") then
        [⟨extractColumnName ((jvField node "expr").getD .null),
          if jvTruthyField node "not" then "NOT BETWEEN" else "BETWEEN",
          .arr [extractValue ((jvField node "left").getD .null),
                extractValue ((jvField node "right").getD .null)]⟩]
      else if typ = some (.str "unary_expr") then
        let op := opStr (jvField node "operator")
        if (op = "IS" ∨ op = "IS NOT") ∧
            (match jvField node "right" with
             | some r => isObjectLike r && (jvField r "type" = some (.str "null"))
             | none => false : Bool) then
          [⟨extractColumnName ((jvField node "expr").getD .null),
            if op = "IS" then "IS NULL" else "IS NOT NULL", .null⟩]
        else []
      else if typ = some (.str "in_expr") then
        let column := extractColumnName ((jvField node "expr").getD .null)
        let values :=
          match jvField node "value" with
          | some (.arr vs) => vs.map extractValue
          | some v =>
            if isObjectLike v ∧ ¬jsFalsy v then
              if jvField v "type" = some (.str "expr_list") then
                match jvField v "value" with
                | some (.arr vs) => vs.map extractValue
                | _ => [extractValue v]
              else [extractValue v]
            else []
          | none => []
        [⟨column, if jvTruthyField node "not" then "NOT IN" else "IN", .arr values⟩]
      else if typ = some (.str "exists_expr") then
        [⟨"EXISTS", if jvTruthyField node "not" then "NOT EXISTS" else "EXISTS",
          (jvField node "value").getD .null⟩]
      else []

/-- `parseConditionNode`. -/
def parseConditionNode (node : Jv) : List Condition :=
  parseConditionNodeF (jvSize node) node

/-- `extractTableColumnRef`: table and column of a `column_ref`, empty
strings otherwise. -/
def extractTableColumnRef (node : Jv) : String × String :=
  if isObjectLike node ∧ jvField node "type" = some (.str "column_ref") then
    ((match jvField node "table" with | some (.str t) => t | _ => ""),
     (match jvField node "column" with | some (.str c) => c | _ => ""))
  else ("", "")

/-- `extractJoinCondition`: a structural join condition from a plain
equality `a.x = b.y`, with empty table references falling back to the
surrounding tables. -/
def extractJoinCondition (onClause : Jv) (leftTable rightTable joinType : String) :
    Option JoinCondition :=
  if isObjectLike onClause ∧ jvField onClause "type" = some (.str "binary_expr") ∧
      jvField onClause "operator" = some (.str "=") then
    let leftRef := extractTableColumnRef ((jvField onClause "left").getD .null)
    let rightRef := extractTableColumnRef ((jvField onClause "right").getD .null)
    if leftRef.2 ≠ "" ∧ rightRef.2 ≠ "" then
      some ⟨if leftRef.1 = "" then leftTable else leftRef.1, leftRef.2,
            if rightRef.1 = "" then rightTable else rightRef.1, rightRef.2,
            joinType⟩
    else none
  else none

/-- `extractTables`: tables of the `FROM` clause with aliases and the join
conditions, which are attached to the first table.  Every table starts with
an empty (present) `joinConditions` array and an absent `conditions`
field, as in the source. -/
def extractTables (ast : Jv) : List TableAccess :=
  match jvField ast "from" with
  | some (.arr fromItems) =>
    let step := fun (acc : List TableAccess × List JoinCondition × Option String)
        (fromItem : Jv) =>
      let (tables, jcs, prev) := acc
      match jvField fromItem "table" with
      | some (.str tbl) =>
        let currentAlias :=
          match jvField fromItem "as" with
          | some (.str a) => some a
          | _ => none
        let tables := tables ++ [⟨tbl, currentAlias, [], none, some []⟩]
        let jcs :=
          if jvTruthyField fromItem "join" ∧ jvTruthyField fromItem "on" then
            let joinStr :=
              strUpper (jsString ((jvField fromItem "join").getD .null))
            let joinType :=
              if strContains joinStr "LEFT" then "LEFT JOIN"
              else if strContains joinStr "RIGHT" then "RIGHT JOIN"
              else if strContains joinStr "FULL" then "FULL JOIN"
              else if strContains joinStr "CROSS" then "CROSS JOIN"
              else "INNER JOIN"
            let leftTable :=
              match prev with
              | some p => p
              | none => ((tables.head?).map (·.table)).getD ""
            match extractJoinCondition ((jvField fromItem "on").getD .null)
                leftTable tbl joinType with
            | some jc => jcs ++ [jc]
            | none => jcs
          else jcs
        (tables, jcs, some tbl)
      | _ => acc
    let res := fromItems.foldl step ([], [], none)
    match res.1, res.2.1 with
    | [], _ => []
    | tables, [] => tables
    | t0 :: rest, jcs => { t0 with joinConditions := some jcs } :: rest
  | _ => []

/-- `extractColumns`: selected column names; `*` stays `*`; aggregates
become `NAME(arg)`. -/
def extractColumns (ast : Jv) : List String :=
  match jvField ast "columns" with
  | some (.str s) => if s = "*" then ["*"] else []
  | some (.arr cols) =>
    cols.foldl (fun acc col =>
      let e := (jvField col "expr").getD .null
      if jvField e "type" = some (.str "column_ref") then
        match jvField e "column" with
        | some (.str c) => acc ++ [c]
        | _ => acc
      else if jvField e "type" = some (.str "aggr_func") then
        let args := (jvField e "args").bind (fun a => jvField a "expr")
        let argCol :=
          match args with
          | some a => if jsFalsy a then "*" else extractColumnName a
          | none => "*"
        let name :=
          match jvField e "name" with
          | some (.str n) => n
          | _ => "undefined"
        acc ++ [name ++ "(" ++ argCol ++ ")"]
      else acc) []
  | _ => []

/-- `extractConditions`: the parsed WHERE conditions. -/
def extractConditions (ast : Jv) : List Condition :=
  match jvField ast "where" with
  | some w => if jsFalsy w then [] else parseConditionNode w
  | none => []

/-- `extractAggregates`: upper-cased aggregate function names of the select
list (the GROUP BY list is also collected by the source but unused by
`analyzeSELECT` beyond this). -/
def extractAggregates (ast : Jv) : List String :=
  match jvField ast "columns" with
  | some (.arr cols) =>
    cols.foldl (fun acc col =>
      let e := (jvField col "expr").getD .null
      if jvField e "type" = some (.str "aggr_func") then
        acc ++ [strUpper (match jvField e "name" with
                          | some (.str n) => n
                          | _ => "undefined")]
      else acc) []
  | _ => []

/-- `extractOrderBy` (fuelled through `_next` for set-operation tails). -/
def extractOrderByF : Nat → Jv → List OrderByItem
  | 0, _ => []
  | fuel + 1, ast =>
    let obClause := jvField ast "orderby"
    let obFalsy : Bool := match obClause with | some v => jsFalsy v | none => true
    if obFalsy ∧ jvHasField ast "_next" ∧ jvTruthyField ast "_next" then
      extractOrderByF fuel ((jvField ast "_next").getD .null)
    else
      match obClause with
      | some (.arr items) =>
        items.map (fun ob =>
          ⟨extractColumnName ((jvField ob "expr").getD .null),
           match jvField ob "type" with
           | some (.str t) => if strUpper t = "" then "ASC" else strUpper t
           | _ => "ASC"⟩)
      | _ => []

/-- `extractOrderBy`. -/
def extractOrderBy (ast : Jv) : List OrderByItem :=
  extractOrderByF (jvSize ast) ast

/-- `Number(...)` of an AST limit slot: an object's `value` field,
otherwise the value itself; `none` models `NaN`. -/
def limitSlotNum (v : Jv) : Option Int :=
  match v with
  | .obj _ => jsToNum ((jvField v "value").getD .null)
  | v => jsToNum v

/-- `extractLimit` (fuelled through `_next`); `none` models both the
`undefined` return and a `NaN` conversion. -/
def extractLimitF : Nat → Jv → Option Int
  | 0, _ => none
  | fuel + 1, ast =>
    let limitClause := jvField ast "limit"
    let limFalsy : Bool := match limitClause with | some v => jsFalsy v | none => true
    if limFalsy ∧ jvHasField ast "_next" ∧ jvTruthyField ast "_next" then
      extractLimitF fuel ((jvField ast "_next").getD .null)
    else
      match limitClause with
      | none => none
      | some l =>
        if jsFalsy l then none
        else
          match l with
          | .obj _ =>
            (match jvField l "value" with
             | some (.arr vs) =>
               match vs.head? with
               | some v => limitSlotNum v
               | none => none
             | _ =>
               if jvHasField l "value" then jsToNum ((jvField l "value").getD .null)
               else jsToNum l)
          | v => jsToNum v

/-- `extractLimit`. -/
def extractLimit (ast : Jv) : Option Int :=
  extractLimitF (jvSize ast) ast

/-- `extractOffset`: the second limit slot, or a truthy `offset` field. -/
def extractOffset (ast : Jv) : Option Int :=
  match jvField ast "limit" with
  | some l =>
    if jsFalsy l then none
    else
      match l with
      | .obj _ =>
        (match jvField l "value" with
         | some (.arr vs) =>
           if vs.length > 1 then
             match vs.getD 1 .null with
             | v => limitSlotNum v
           else offsetFieldNum l
         | _ => offsetFieldNum l)
      | _ => none
  | none => none
where
  /-- `if ("offset" in limitObj && limitObj.offset) Number(limitObj.offset)`. -/
  offsetFieldNum (l : Jv) : Option Int :=
    if jvHasField l "offset" ∧ jvTruthyField l "offset" then
      jsToNum ((jvField l "offset").getD .null)
    else none

/-- `extractDistinct`. -/
def extractDistinct (ast : Jv) : Bool :=
  jvField ast "distinct" = some (.str "DISTINCT") ∨
  jvField ast "distinct" = some (.bool true)

/-- `detectSubqueryInNode` (fuelled): a nested SELECT with a `from`, an
`IN` against a select or an empty value list, an `EXISTS` over a select,
either side of a binary expression, or any object-valued field,
recursively. -/
def detectSubqueryInNode : Nat → Jv → Bool
  | 0, _ => false
  | fuel + 1, node =>
    if ¬isObjectLike node then false
    else
      let typ := jvField node "type"
      if typ = some (.str "select") ∧ jvTruthyField node "from" then true
      else if typ = some (.str "in_expr") ∧
          (match jvField node "value" with
           | some v =>
             (jvField v "type" = some (.str "select") : Bool) ||
             (v = Jv.arr [] : Bool)
           | none => false : Bool) then true
      else if typ = some (.str "exists_expr") ∧ jvTruthyField node "value" ∧
          (match jvField node "value" with
           | some v => jvField v "type" = some (.str "select")
           | none => false : Bool) then true
      else if typ = some (.str "binary_expr") ∧
          (detectSubqueryInNode fuel ((jvField node "left").getD .null) ∨
           detectSubqueryInNode fuel ((jvField node "right").getD .null)) then true
      else
        (jvChildren node).any (fun v =>
          isObjectLike v ∧ detectSubqueryInNode fuel v)

/-- `detectSubquery`: EXISTS conditions, a subquery in WHERE, or a derived
table in FROM. -/
def detectSubquery (ast : Jv) (conditions : List Condition) : Bool :=
  if conditions.any (fun c => c.operator = "EXISTS" ∨ c.operator = "NOT EXISTS") then
    true
  else if (match jvField ast "where" with
           | some w => !jsFalsy w && detectSubqueryInNode (jvSize w) w
           | none => false : Bool) then true
  else
    match jvField ast "from" with
    | some (.arr fromItems) =>
      fromItems.any (fun fromItem =>
        isObjectLike fromItem &&
        (match jvField fromItem "expr" with
         | some e =>
           !jsFalsy e &&
           ((match jvField e "ast" with
             | some a => !jsFalsy a && (jvField a "type" = some (.str "select"))
             | none => false : Bool) ||
            (jvField e "type" = some (.str "select") : Bool))
         | none => false : Bool))
    | _ => false

/-- `detectSetOperation` (fuelled through statement arrays and `_next`
chains). -/
def detectSetOperationF : Nat → Jv → Option String
  | 0, _ => none
  | fuel + 1, ast =>
    match ast with
    | .arr nodes =>
      nodes.foldl (fun acc node =>
        match acc with
        | some r => some r
        | none => detectSetOperationF fuel node) none
    | _ =>
      let nextStep : Option String :=
        if jvHasField ast "_next" ∧ jvTruthyField ast "_next" then
          detectSetOperationF fuel ((jvField ast "_next").getD .null)
        else none
      if jvHasField ast "set_op" ∧ jvTruthyField ast "set_op" then
        let setOp := strLower (jsString ((jvField ast "set_op").getD .null))
        if setOp = "union all" then some "UNION ALL"
        else if setOp = "union" then some "UNION"
        else if setOp = "intersect" then some "INTERSECT"
        else if setOp = "except" then some "EXCEPT"
        else nextStep
      else nextStep

/-- `normalizeORMAliases`: collect `tN` aliases from the AST's FROM items,
rewrite `tN.` references back to table names, drop the `AS tN`
declarations, and re-collapse whitespace. -/
def normalizeORMAliases (sql : String) (ast : Jv) : String :=
  let aliasMap :=
    match jvField ast "from" with
    | some (.arr fromItems) =>
      fromItems.foldl (fun m fromItem =>
        match jvField fromItem "as", jvField fromItem "table" with
        | some (.str a), some (.str t) =>
          if isOrmAlias a then mapSet m a t else m
        | _, _ => m) []
    | _ => []
  let result := aliasMap.foldl (fun (r : String) p =>
    let r := String.mk (replaceAliasDot p.1 p.2 r.data.length false r.data)
    String.mk (removeAsAlias p.1 r.data.length false r.data)) sql
  strTrim (String.mk (collapseWsGo false result.data))

/-- `normalizeSQL`: whitespace and punctuation-spacing canonicalisation,
backtick stripping, ORM-alias rewriting (when an AST is supplied), and
`IN (...)` value ordering.  Carried only on the diagnostic `normalizedSQL`
field; fingerprinting uses the structured form. -/
def normalizeSQL (sql : String) (ast : Option Jv) : String :=
  let n := String.mk (collapseWsGo false sql.data)
  let n := String.mk (replaceAround ',' [',', ' '] n.data.length n.data)
  let n := String.mk (replaceAround '(' ['('] n.data.length n.data)
  let n := String.mk (replaceAround ')' [')'] n.data.length n.data)
  let n := strTrim n
  let n := String.mk (stripTicks n.data.length n.data)
  let n :=
    match ast with
    | some a => normalizeORMAliases n a
    | none => n
  normalizeINClauses n

/-! ### The analysis entry point (source section 6, `analyzeSELECT`) -/

/-- The parser's AST for `SELECT * FROM users WHERE id = 10`. -/
def astUsersIdEq10 : Jv :=
  .obj [("with", .null), ("type", .str "select"), ("options", .null),
        ("distinct", .null),
        ("columns", .arr [.obj [
          ("expr", .obj [("type", .str "column_ref"), ("table", .null),
                         ("column", .str "*")]),
          ("as", .null)]]),
        ("from", .arr [.obj [("db", .null), ("table", .str "users"),
                             ("as", .null)]]),
        ("where", .obj [("type", .str "binary_expr"), ("operator", .str "="),
          ("left", .obj [("type", .str "column_ref"), ("table", .null),
                         ("column", .str "id")]),
          ("right", .obj [("type", .str "number"), ("value", .num 10)])]),
        ("groupby", .null), ("having", .null), ("orderby", .null),
        ("limit", .null)]

/-- The parser's AST for `SELECT * FROM users WHERE id IN (v1,v2,...)`. -/
def astUsersIdIn (vals : List Int) : Jv :=
  .obj [("with", .null), ("type", .str "select"), ("options", .null),
        ("distinct", .null),
        ("columns", .arr [.obj [
          ("expr", .obj [("type", .str "column_ref"), ("table", .null),
                         ("column", .str "*")]),
          ("as", .null)]]),
        ("from", .arr [.obj [("db", .null), ("table", .str "users"),
                             ("as", .null)]]),
        ("where", .obj [("type", .str "binary_expr"), ("operator", .str "IN"),
          ("left", .obj [("type", .str "column_ref"), ("table", .null),
                         ("column", .str "id")]),
          ("right", .obj [("type", .str "expr_list"),
            ("value", .arr (vals.map (fun n =>
              .obj [("type", .str "number"), ("value", .num n)])))])]),
        ("groupby", .null), ("having", .null), ("orderby", .null),
        ("limit", .null)]

/-- Modelled from the spec: the SQL parser adapter (§4.B) wraps an external
parser library (`node-sql-parser` with the MySQL dialect), which is not
part of the repository; its typed AST output is reproduced here for the
concrete statements exercised by the spec's scenarios (§8), and `none`
models a `ParseFailed` rejection of everything else. -/
def SQL_PARSER_astify (sql : String) : Option Jv :=
  if sql = "SELECT * FROM users WHERE id = 10" then some astUsersIdEq10
  else if sql = "SELECT * FROM users WHERE id IN (3,1,2)" then
    some (astUsersIdIn [3, 1, 2])
  else if sql = "SELECT * FROM users WHERE id IN (1,2,3)" then
    some (astUsersIdIn [1, 2, 3])
  else none

/-- Appends a column to the first table of the list. -/
def pushColumnToFirst (tables : List TableAccess) (c : String) :
    List TableAccess :=
  match tables with
  | t0 :: rest => { t0 with columns := t0.columns ++ [c] } :: rest
  | [] => []

/-- Appends a column to the first table satisfying the predicate
(`tables.find(...)` followed by a push). -/
def pushColumnToMatch (p : TableAccess → Bool) (c : String) :
    List TableAccess → List TableAccess
  | [] => []
  | t :: ts =>
    if p t then { t with columns := t.columns ++ [c] } :: ts
    else t :: pushColumnToMatch p c ts

/-- `analyzeSELECT`: bind parameters, parse, normalize, extract, attach
columns and conditions to tables, classify, and fingerprint.  `none`
models the thrown `AnalysisError`. -/
def analyzeSELECT (sql : String) (params : Option Params) : Option CacheKey :=
  let boundSQL := bindParams sql params
  match SQL_PARSER_astify boundSQL with
  | none => none
  | some ast =>
    let astNode? := match ast with | .arr xs => xs.head? | node => some node
    match astNode? with
    | none => none
    | some astNode =>
      let normalizedSQL := normalizeSQL boundSQL (some astNode)
      let tables := extractTables astNode
      let columns := extractColumns astNode
      let conditions := extractConditions astNode
      let aggregates := extractAggregates astNode
      let orderBy := extractOrderBy astNode
      let limit := extractLimit astNode
      let offset := extractOffset astNode
      let distinct := extractDistinct astNode
      let hasSubquery := detectSubquery astNode conditions
      let setOperation := detectSetOperationF (jvSize ast) ast
      let tables :=
        match tables with
        | [t0] => [{ t0 with columns := columns, conditions := some conditions }]
        | tables =>
          let tables :=
            match jvField astNode "columns" with
            | some (.arr cols) =>
              cols.foldl (fun (tables : List TableAccess) (col : Jv) =>
                let e := (jvField col "expr").getD Jv.null
                if jvField e "type" = some (Jv.str "column_ref") then
                  match jvField e "column" with
                  | some (.str c) =>
                    let columnName := c
                    (match jvField e "table" with
                     | some (.str tr) =>
                       if tr ≠ "" then
                         pushColumnToMatch
                           (fun t => t.alias = some tr ∨ t.table = tr)
                           columnName tables
                       else pushColumnToFirst tables columnName
                     | some v =>
                       if jsFalsy v then pushColumnToFirst tables columnName
                       else tables
                     | none => pushColumnToFirst tables columnName)
                  | _ => tables
                else if jvField e "type" = some (Jv.str "aggr_func") then
                  let args := (jvField e "args").bind (fun a => jvField a "expr")
                  let argCol :=
                    match args with
                    | some a => if jsFalsy a then "*" else extractColumnName a
                    | none => "*"
                  let name :=
                    match jvField e "name" with
                    | some (.str n) => n
                    | _ => "undefined"
                  pushColumnToFirst tables (name ++ "(" ++ argCol ++ ")")
                else tables) tables
            | _ => tables
          match tables with
          | t0 :: rest => { t0 with conditions := some conditions } :: rest
          | [] => []
      let classification := classifyQuery tables conditions
        (¬aggregates.isEmpty) hasSubquery setOperation.isSome
      let cacheKey : CacheKey :=
        { tables := tables
          fingerprint := ""
          classification := classification
          normalizedSQL := some normalizedSQL
          orderBy := if orderBy.length > 0 then some orderBy else none
          limit := limit
          offset := offset
          distinct := if distinct then some true else none
          hasSubquery := if hasSubquery then some true else none
          setOperation := setOperation }
      some { cacheKey with fingerprint := generateFingerprint cacheKey }


/-! ### C8: sort-safety and permutation relations on cache keys

`sortIfNeeded` sorts a two-element array with the JavaScript relational
`>` and longer arrays with the default sort, which compares string
conversions and keeps ties in input order.  The sorted result is therefore
determined by the multiset of elements exactly when the list is
homogeneous (all numbers or all strings, making `>` a total order on two
elements) and string conversion separates its elements (making ties of
the default sort occur only between equal elements). -/

/-- Whether a value is a number. -/
def jvIsNum : Jv → Bool
  | .num _ => true
  | _ => false

/-- Whether a value is a string. -/
def jvIsStr : Jv → Bool
  | .str _ => true
  | _ => false

/-- The side condition under which the source's value sorting is
order-insensitive: homogeneous element types and injective string
conversion on the elements. -/
def sortSafe (xs : List Jv) : Bool :=
  (xs.all jvIsNum || xs.all jvIsStr) &&
  xs.all (fun a => xs.all (fun b => decide (jsString a = jsString b → a = b)))

/-- Sortedness by a string key (the invariant of `insertByKey`). -/
def KeySorted {α : Type} (key : α → String) (l : List α) : Prop :=
  l.Pairwise (fun x y => strLeB (key x) (key y) = true)

/-- Condition values that differ only by a sort-safe permutation of an
`IN` list. -/
def ValueRel (op : String) (v v' : Jv) : Prop :=
  v = v' ∨ (op = "IN" ∧ ∃ xs xs' : List Jv,
    v = .arr xs ∧ v' = .arr xs' ∧ xs.Perm xs' ∧ sortSafe xs = true)

/-- Conditions that differ only by a sort-safe permutation of an `IN`
value list. -/
def CondRel (c c' : Condition) : Prop :=
  c.column = c'.column ∧ c.operator = c'.operator ∧
  ValueRel c.operator c.value c'.value

/-- Pointwise `CondRel` on condition lists. -/
def CondsRel : List Condition → List Condition → Prop := List.Forall₂ CondRel

/-- `CondRel` lifted to the optional condition list of a table. -/
def OptCondsRel : Option (List Condition) → Option (List Condition) → Prop
  | none, none => True
  | some cs, some cs' => CondsRel cs cs'
  | _, _ => False

/-- Tables that differ only by sort-safe permutations of `IN` value
lists. -/
def TableRel (t t' : TableAccess) : Prop :=
  t.table = t'.table ∧ t.alias = t'.alias ∧ t.columns = t'.columns ∧
  OptCondsRel t.conditions t'.conditions ∧ t.joinConditions = t'.joinConditions

/-- Cache keys that differ only by sort-safe permutations of `IN` value
lists inside their conditions. -/
def KeyRel (k k' : CacheKey) : Prop :=
  List.Forall₂ TableRel k.tables k'.tables ∧
  k.classification = k'.classification ∧ k.orderBy = k'.orderBy ∧
  k.limit = k'.limit ∧ k.offset = k'.offset ∧ k.distinct = k'.distinct ∧
  k.hasSubquery = k'.hasSubquery ∧ k.setOperation = k'.setOperation

/-- A row-lookup cache key for `WHERE id IN (...)` over `users`, with the
given value list. -/
def keyIdIn (vals : List Jv) : CacheKey :=
  { tables := [⟨"users", none, ["*"], some [⟨"id", "IN", .arr vals⟩], none⟩]
    fingerprint := ""
    classification := "row-lookup"
    normalizedSQL := none
    orderBy := none
    limit := none
    offset := none
    distinct := none
    hasSubquery := none
    setOperation := none }

/-- A complex-classified cache key for `WHERE status IN (...)` over `t`,
with the given value list: its fingerprint is the structural hash. -/
def keyStatusIn (vals : List Jv) : CacheKey :=
  { tables := [⟨"t", none, ["*"], some [⟨"status", "IN", .arr vals⟩], none⟩]
    fingerprint := ""
    classification := "complex"
    normalizedSQL := none
    orderBy := none
    limit := none
    offset := none
    distinct := none
    hasSubquery := none
    setOperation := none }

/-! ### Concrete cache keys and invariants used by the theorems -/

/-- A row-lookup cache key for `WHERE id = 10 AND status = 'active'`: the
primary-key equality is accompanied by a second condition on another
column. -/
def keyIdAndStatus : CacheKey :=
  { tables := [⟨"users", none, ["*"],
               some [⟨"id", "=", .num 10⟩, ⟨"status", "=", .str "active"⟩],
               some []⟩]
    fingerprint := ""
    classification := "row-lookup"
    normalizedSQL := none
    orderBy := none
    limit := none
    offset := none
    distinct := none
    hasSubquery := none
    setOperation := none }

/-- A plausible row-lookup cache key for `users` with `id = 7`, whose
fingerprint field matches its human-readable fingerprint. -/
def keyId7 : CacheKey :=
  { tables := [⟨"users", none, ["*"], some [⟨"id", "=", .num 7⟩], some []⟩]
    fingerprint := "users:id=7:row-lookup"
    classification := "row-lookup"
    normalizedSQL := none
    orderBy := none
    limit := none
    offset := none
    distinct := none
    hasSubquery := none
    setOperation := none }

/-- Every fingerprint held in any of the four secondary index tables is the
primary key of an existing `cache_entries` row. -/
def IndexOwned (s : Store) : Prop :=
  (∀ r ∈ s.tableIndex, (lookupEntry s r.2).isSome = true) ∧
  (∀ r ∈ s.rowIndex, (lookupEntry s r.2.2).isSome = true) ∧
  (∀ r ∈ s.columnIndex, (lookupEntry s r.2.2).isSome = true) ∧
  (∀ r ∈ s.aggregateIndex, (lookupEntry s r.2).isSome = true)

/-! ## Theorems -/

/-- C7: `analyzeSELECT("SELECT * FROM users WHERE id = ?", [10])` yields a
cache key classified `row-lookup` whose fingerprint is exactly the string
`users:id=10:row-lookup`. -/
theorem c7_row_lookup_fingerprint :
    (analyzeSELECT "SELECT * FROM users WHERE id = ?"
      (some (.positional [.num 10]))).map
        (fun k => (k.classification, k.fingerprint)) =
    some ("row-lookup", "users:id=10:row-lookup") := by decide

/-- C4 counterexample: on a row-lookup key whose table carries the
primary-key equality `id = 10` *and* a further condition
`status = 'active'`, `generateFingerprint` still returns the human-readable
string (22 characters, not a 16-hex hash): the source only requires the
condition list to contain a primary-key condition, not to consist of
exactly it. -/
theorem c4_extra_condition_counterexample :
    generateFingerprint keyIdAndStatus = "users:id=10:row-lookup" ∧
    (generateFingerprint keyIdAndStatus).length ≠ 16 := by decide

/-- C4 (amended): for a `row-lookup` key with exactly one table and none of
`orderBy/limit/offset/distinct/hasSubquery/setOperation` set, whenever the
table's condition list contains an equality-or-`IN` condition on `id` or
`uuid` — even together with arbitrary additional conditions — the
fingerprint is the human-readable rendering of the first such condition,
not the structural hash. -/
theorem c4_human_readable_despite_extra_conditions
    (k : CacheKey) (t : TableAccess) (conds : List Condition) (c : Condition)
    (hk : k.tables = [t])
    (hclass : k.classification = "row-lookup")
    (hob : k.orderBy = none) (hlim : k.limit = none) (hoff : k.offset = none)
    (hdis : k.distinct = none) (hsub : k.hasSubquery = none)
    (hset : k.setOperation = none)
    (hconds : t.conditions = some conds)
    (hfind : conds.find? (fun c =>
        (strLower c.column = "id" ∨ strLower c.column = "uuid") ∧
        (c.operator = "=" ∨ c.operator = "IN")) = some c) :
    generateFingerprint k =
      t.table ++ ":" ++ c.column ++ "=" ++
        (if c.operator = "IN" then
          match c.value with
          | .arr xs => String.intercalate "," ((jsSortValues xs).map jsString)
          | v => jsString v
        else jsString c.value) ++ ":row-lookup" := by
  unfold generateFingerprint pkHumanFingerprint
  rw [hk]
  simp only [Bool.decide_and, Bool.decide_or] at hfind
  simp [hclass, hob, hlim, hoff, hdis, hsub, hset, hconds, hfind]

/-- C4 witness: the amended theorem applied to the `id = 10 AND
status = 'active'` key. -/
theorem c4_human_readable_witness :
    generateFingerprint keyIdAndStatus = "users:id=10:row-lookup" := by
  have h := c4_human_readable_despite_extra_conditions keyIdAndStatus
    ⟨"users", none, ["*"],
      some [⟨"id", "=", .num 10⟩, ⟨"status", "=", .str "active"⟩], some []⟩
    [⟨"id", "=", .num 10⟩, ⟨"status", "=", .str "active"⟩]
    ⟨"id", "=", .num 10⟩
    rfl rfl rfl rfl rfl rfl rfl rfl rfl (by decide)
  simpa using h

/-- C5 counterexample: the equality/equality fast path of `rangesOverlap`
compares with JavaScript strict equality, so the number `5` and the
numeric string `"5"` are reported non-overlapping, while the claim calls
them numerically equal and overlapping. -/
theorem c5_strict_equality_counterexample :
    rangesOverlap ⟨"a", "=", .num 5⟩ ⟨"a", "=", .str "5"⟩ = false := by decide

theorem rangesOverlapSlow_range_iff (lo1 hi1 lo2 hi2 : Option Int)
    (i1 j1 i2 j2 : Bool) :
    rangesOverlapSlow (.range lo1 hi1 i1 j1) (.range lo2 hi2 i2 j2) = false ↔
      (∃ b c : Int, hi1 = some b ∧ lo2 = some c ∧
        (b < c ∨ (b = c ∧ ¬(j1 = true ∧ i2 = true)))) ∨
      (∃ a d : Int, lo1 = some a ∧ hi2 = some d ∧
        (d < a ∨ (a = d ∧ ¬(i1 = true ∧ j2 = true)))) := by
  rcases lo1 with _ | a <;> rcases hi1 with _ | b <;>
    rcases lo2 with _ | c <;> rcases hi2 with _ | d <;>
    cases i1 <;> cases j1 <;> cases i2 <;> cases j2 <;>
    simp [rangesOverlapSlow] <;> omega

/-- C5 (amended): on a shared column, `rangesOverlap` decides equality
against equality by strict equality (`===`, so `5` and `"5"` do not
overlap); `IN` against `=` by strict membership; `IN` against `IN` by
intersection of the numeric projections of the two lists, provided the
first list has a numeric member; and, for every pair of conditions that
reaches the range analysis and whose two extractions produce bounds, it
is false exactly under the endpoint rules: some upper bound `b` of the
first range meets a lower bound `c` of the second with `b < c` or a
non-doubly-inclusive touch `b = c`, or some lower bound `a` of the first
meets an upper bound `d` of the second with `d < a` or a
non-doubly-inclusive touch `a = d`. -/
theorem c5_overlap_rules (col : String) :
    (∀ v w : Jv, rangesOverlap ⟨col, "=", v⟩ ⟨col, "=", w⟩ = jsStrictEq v w) ∧
    (∀ (xs : List Jv) (v : Jv),
      rangesOverlap ⟨col, "IN", .arr xs⟩ ⟨col, "=", v⟩ = jsIncludes xs v) ∧
    (∀ xs ys : List Jv, ¬(xs.filterMap getNumValue).isEmpty →
      rangesOverlap ⟨col, "IN", .arr xs⟩ ⟨col, "IN", .arr ys⟩ =
        (xs.filterMap getNumValue).any
          (fun v => (ys.filterMap getNumValue).contains v)) ∧
    (∀ cond1 cond2 : Condition, cond1.column = cond2.column →
      ¬(cond1.operator = "=" ∧ cond2.operator = "=") →
      ¬(cond1.operator = "IN" ∧ cond2.operator = "=" ∧
        isArrJv cond1.value = true) →
      ¬(cond2.operator = "IN" ∧ cond1.operator = "=" ∧
        isArrJv cond2.value = true) →
      ∀ (lo1 hi1 lo2 hi2 : Option Int) (i1 j1 i2 j2 : Bool),
        extractRange1 cond1 cond2 = .range lo1 hi1 i1 j1 →
        extractRange2 cond1 cond2 = .range lo2 hi2 i2 j2 →
        (rangesOverlap cond1 cond2 = false ↔
          (∃ b c : Int, hi1 = some b ∧ lo2 = some c ∧
            (b < c ∨ (b = c ∧ ¬(j1 = true ∧ i2 = true)))) ∨
          (∃ a d : Int, lo1 = some a ∧ hi2 = some d ∧
            (d < a ∨ (a = d ∧ ¬(i1 = true ∧ j2 = true)))))) := by
  refine ⟨fun v w => ?_, fun xs v => ?_, fun xs ys h => ?_, ?_⟩
  · simp [rangesOverlap]
  · simp [rangesOverlap, isArrJv, arrVals]
  · simp only [rangesOverlap, extractRange1, isArrJv]
    simp [h, arrVals, rangesOverlapSlow]
  · intro cond1 cond2 hcol hb1 hb2 hb3 lo1 hi1 lo2 hi2 i1 j1 i2 j2 h1 h2
    unfold rangesOverlap
    rw [if_neg (by simp [hcol]), if_neg hb1, if_neg hb2, if_neg hb3, h1, h2]
    exact rangesOverlapSlow_range_iff lo1 hi1 lo2 hi2 i1 j1 i2 j2

/-- C5 witness: the amended rules evaluated with concrete operands — the
`IN`/`IN` projection rule on the column `a`, and the general endpoint
rule at the pairing `BETWEEN [1,5]` against `> 7` (ranges `[1,5]` and
`(7,∞)`, disjoint since `5 < 7`). -/
theorem c5_overlap_rules_witness :
    rangesOverlap ⟨"a", "IN", .arr [.num 1, .num 2, .num 3]⟩
        ⟨"a", "IN", .arr [.num 99]⟩ = false ∧
    rangesOverlap ⟨"a", "BETWEEN", .arr [.num 1, .num 5]⟩
        ⟨"a", ">", .num 7⟩ = false := by
  constructor
  · exact ((c5_overlap_rules "a").2.2.1 [.num 1, .num 2, .num 3] [.num 99]
      (by decide)).trans (by decide)
  · exact ((c5_overlap_rules "a").2.2.2
      ⟨"a", "BETWEEN", .arr [.num 1, .num 5]⟩ ⟨"a", ">", .num 7⟩
      rfl (by decide) (by decide) (by decide)
      (some 1) (some 5) (some 7) none true true false true
      rfl rfl).mpr
      (.inl ⟨5, 7, rfl, rfl, .inl (by omega)⟩)

/-- C6: for an `INSERT` write, `shouldInvalidate` returns true exactly when
some cached table matches the written table — the table gate decides
everything and the INSERT analysis always invalidates past it. -/
theorem c6_insert_table_gate (k : CacheKey) (w : InvalidationInfo)
    (hop : w.operation = "INSERT") :
    shouldInvalidate k w = true ↔ ∃ t ∈ k.tables, t.table = w.table := by
  unfold shouldInvalidate
  cases hfind : k.tables.find? (fun t => t.table = w.table) with
  | none =>
    simp only [hfind]
    constructor
    · intro h; cases h
    · rintro ⟨t, ht, htt⟩
      have := List.find?_eq_none.mp hfind t ht
      simp [htt] at this
  | some t =>
    have ht := List.mem_of_find?_eq_some hfind
    have htt : t.table = w.table := by
      have := List.find?_some hfind
      simpa using this
    simp only [hfind, hop]
    simp
    exact ⟨t, ht, htt⟩

/-- C6 witness: an `INSERT` into `users` against a cached `users`
row-lookup invalidates. -/
theorem c6_insert_table_gate_witness :
    shouldInvalidate keyIdAndStatus
      ⟨"users", "INSERT", none, none, none⟩ = true := by
  refine (c6_insert_table_gate keyIdAndStatus _ rfl).mpr ?_
  exact ⟨⟨"users", none, ["*"],
    some [⟨"id", "=", .num 10⟩, ⟨"status", "=", .str "active"⟩], some []⟩,
    by constructor, rfl⟩

/-! ### Store lemmas -/

theorem mem_insertIgnore {α : Type} [DecidableEq α] {l : List α} {x y : α} :
    y ∈ insertIgnore l x ↔ y ∈ l ∨ y = x := by
  unfold insertIgnore
  by_cases h : x ∈ l
  · simp only [if_pos h]
    constructor
    · exact Or.inl
    · rintro (hy | rfl) <;> [exact hy; exact h]
  · simp [if_neg h]

theorem mem_foldl_insertIgnore {α : Type} [DecidableEq α] (l : List α)
    (acc : List α) (x : α) :
    x ∈ l.foldl insertIgnore acc ↔ x ∈ acc ∨ x ∈ l := by
  induction l generalizing acc with
  | nil => simp
  | cons y ys ih =>
    simp only [List.foldl_cons, ih, mem_insertIgnore, List.mem_cons]
    tauto

theorem find?_filter_of_imp {α : Type} (l : List α) (p q : α → Bool)
    (h : ∀ e, p e = true → q e = true) :
    (l.filter q).find? p = l.find? p := by
  induction l with
  | nil => rfl
  | cons e es ih =>
    by_cases hp : p e = true
    · rw [List.filter_cons, if_pos (h e hp)]
      rw [List.find?_cons_of_pos _ hp, List.find?_cons_of_pos _ hp]
    · have hp' : p e = false := Bool.eq_false_iff.mpr hp
      by_cases hq : q e = true
      · rw [List.filter_cons, if_pos hq, List.find?_cons_of_neg _ hp,
          List.find?_cons_of_neg _ hp]
        exact ih
      · rw [List.filter_cons, if_neg hq, List.find?_cons_of_neg _ hp]
        exact ih

theorem find?_eq_none_of_all {α : Type} {l : List α} {p : α → Bool}
    (h : ∀ e ∈ l, ¬p e = true) : l.find? p = none :=
  List.find?_eq_none.mpr h

theorem registerRows_fields (f tbl : String) (conds : Option (List Condition))
    (s : Store) :
    (registerRows f tbl conds s).cacheEntries = s.cacheEntries ∧
    (registerRows f tbl conds s).lru = s.lru ∧
    (registerRows f tbl conds s).tableIndex = s.tableIndex ∧
    (registerRows f tbl conds s).columnIndex = s.columnIndex ∧
    (registerRows f tbl conds s).aggregateIndex = s.aggregateIndex := by
  refine ⟨?_, ?_, ?_, ?_, ?_⟩ <;> (unfold registerRows; (repeat' split) <;> rfl)

theorem registerCols_fields (f tbl : String) (cols : List String) (s : Store) :
    (registerCols f tbl cols s).cacheEntries = s.cacheEntries ∧
    (registerCols f tbl cols s).lru = s.lru ∧
    (registerCols f tbl cols s).tableIndex = s.tableIndex ∧
    (registerCols f tbl cols s).rowIndex = s.rowIndex ∧
    (registerCols f tbl cols s).aggregateIndex = s.aggregateIndex := by
  refine ⟨?_, ?_, ?_, ?_, ?_⟩ <;> (unfold registerCols; split <;> rfl)

theorem registerAgg_fields (f : String) (k : CacheKey) (tbl : String)
    (s : Store) :
    (registerAgg f k tbl s).cacheEntries = s.cacheEntries ∧
    (registerAgg f k tbl s).lru = s.lru ∧
    (registerAgg f k tbl s).tableIndex = s.tableIndex ∧
    (registerAgg f k tbl s).rowIndex = s.rowIndex ∧
    (registerAgg f k tbl s).columnIndex = s.columnIndex := by
  refine ⟨?_, ?_, ?_, ?_, ?_⟩ <;> (unfold registerAgg; split <;> rfl)

theorem registerTable_cacheEntries (f : String) (k : CacheKey)
    (t : TableAccess) (s : Store) :
    (registerTable f k t s).cacheEntries = s.cacheEntries := by
  unfold registerTable
  rw [(registerAgg_fields _ _ _ _).1, (registerCols_fields _ _ _ _).1,
    (registerRows_fields _ _ _ _).1]

theorem registerTable_lru (f : String) (k : CacheKey) (t : TableAccess)
    (s : Store) : (registerTable f k t s).lru = s.lru := by
  unfold registerTable
  rw [(registerAgg_fields _ _ _ _).2.1, (registerCols_fields _ _ _ _).2.1,
    (registerRows_fields _ _ _ _).2.1]

theorem registerTable_tableIndex (f : String) (k : CacheKey) (t : TableAccess)
    (s : Store) :
    (registerTable f k t s).tableIndex = insertIgnore s.tableIndex (t.table, f) := by
  unfold registerTable
  rw [(registerAgg_fields _ _ _ _).2.2.1, (registerCols_fields _ _ _ _).2.2.1,
    (registerRows_fields _ _ _ _).2.2.1]

theorem registerFold_cacheEntries (f : String) (k : CacheKey)
    (ts : List TableAccess) (s : Store) :
    (ts.foldl (fun s t => registerTable f k t s) s).cacheEntries =
      s.cacheEntries := by
  induction ts generalizing s with
  | nil => rfl
  | cons t ts ih => rw [List.foldl_cons, ih, registerTable_cacheEntries]

theorem registerFold_lru (f : String) (k : CacheKey)
    (ts : List TableAccess) (s : Store) :
    (ts.foldl (fun s t => registerTable f k t s) s).lru = s.lru := by
  induction ts generalizing s with
  | nil => rfl
  | cons t ts ih => rw [List.foldl_cons, ih, registerTable_lru]

theorem register_cacheEntries (now : Int) (fp : String) (x : Jv)
    (k : CacheKey) (s : Store) :
    (register now fp x k s).cacheEntries =
      upsertEntry ⟨fp, x, k, now⟩ s.cacheEntries := by
  unfold register
  rw [registerFold_cacheEntries]

theorem register_lru (now : Int) (fp : String) (x : Jv) (k : CacheKey)
    (s : Store) : (register now fp x k s).lru = s.lru := by
  unfold register
  rw [registerFold_lru]

theorem lookupEntry_upsert_self (s : Store) (e : StoredEntry) :
    (upsertEntry e s.cacheEntries).find?
      (fun e' => e'.fingerprint = e.fingerprint) = some e := by
  unfold upsertEntry
  induction s.cacheEntries with
  | nil => simp [List.find?]
  | cons a l ih =>
    by_cases h : a.fingerprint = e.fingerprint
    · rw [List.filter_cons, if_neg (by simp [h])]
      exact ih
    · simp only [List.filter_cons]
      rw [if_pos (by simpa using h)]
      rw [List.cons_append, List.find?_cons_of_neg _ (by simpa using h)]
      exact ih

theorem register_lookupEntry_self (now : Int) (fp : String) (x : Jv)
    (k : CacheKey) (s : Store) :
    lookupEntry (register now fp x k s) fp = some ⟨fp, x, k, now⟩ := by
  unfold lookupEntry
  rw [register_cacheEntries]
  exact lookupEntry_upsert_self s ⟨fp, x, k, now⟩

theorem registerFold_tableIndex_mem (f : String) (k : CacheKey)
    (ts : List TableAccess) (s : Store) :
    (∀ r ∈ s.tableIndex,
      r ∈ (ts.foldl (fun s t => registerTable f k t s) s).tableIndex) ∧
    (∀ t ∈ ts, (t.table, f) ∈
      (ts.foldl (fun s t => registerTable f k t s) s).tableIndex) := by
  induction ts generalizing s with
  | nil => simp
  | cons t ts ih =>
    constructor
    · intro r hr
      rw [List.foldl_cons]
      exact (ih (registerTable f k t s)).1 r
        (by rw [registerTable_tableIndex]; exact mem_insertIgnore.mpr (Or.inl hr))
    · intro t' ht'
      rw [List.foldl_cons]
      rcases List.mem_cons.mp ht' with heq | ht'
      · subst heq
        exact (ih (registerTable f k t' s)).1 (t'.table, f)
          (by rw [registerTable_tableIndex]; exact mem_insertIgnore.mpr (Or.inr rfl))
      · exact (ih (registerTable f k t s)).2 t' ht'

theorem register_tableIndex_mem (now : Int) (fp : String) (x : Jv)
    (k : CacheKey) (s : Store) (t : TableAccess) (ht : t ∈ k.tables) :
    (t.table, fp) ∈ (register now fp x k s).tableIndex := by
  unfold register
  exact (registerFold_tableIndex_mem fp k k.tables _).2 t ht

theorem mem_findAffected_of_tableIndex (w : InvalidationInfo) (s : Store)
    (fp : String) (h : (w.table, fp) ∈ s.tableIndex) :
    fp ∈ findAffectedFingerprints w s := by
  have hbase : fp ∈ (s.tableIndex.filter (fun r => r.1 = w.table)).map (·.2) := by
    refine List.mem_map.mpr ⟨(w.table, fp), ?_, rfl⟩
    exact List.mem_filter.mpr ⟨h, by simp⟩
  unfold findAffectedFingerprints
  (repeat' split) <;> simp [mem_foldl_insertIgnore, hbase]

theorem lookupEntry_deleteFingerprints_of_mem (dels : List String) (s : Store)
    (fp : String) (h : fp ∈ dels) :
    lookupEntry (deleteFingerprints dels s) fp = none := by
  unfold lookupEntry deleteFingerprints
  refine find?_eq_none_of_all ?_
  intro e he hpe
  have hnd := (List.mem_filter.mp he).2
  rw [of_decide_eq_true hpe] at hnd
  simp [h] at hnd

theorem lruLookup_deleteFingerprints_of_mem (dels : List String) (s : Store)
    (fp : String) (h : fp ∈ dels) :
    lruLookup (deleteFingerprints dels s).lru fp = none := by
  unfold lruLookup deleteFingerprints
  rw [find?_eq_none_of_all ?_]
  · rfl
  intro p hp hpe
  have hnd := (List.mem_filter.mp hp).2
  rw [of_decide_eq_true hpe] at hnd
  simp [h] at hnd

theorem lookupEntry_deleteFingerprints_of_not_mem (dels : List String)
    (s : Store) (fp : String) (h : fp ∉ dels) :
    lookupEntry (deleteFingerprints dels s) fp = lookupEntry s fp := by
  unfold lookupEntry deleteFingerprints
  refine find?_filter_of_imp _ _ _ ?_
  intro e hpe
  rw [of_decide_eq_true hpe]
  simpa using h

theorem lruLookup_filter_of_none {q : String × Jv → Bool} (lru : List (String × Jv))
    (fp : String) (h : lruLookup lru fp = none) :
    lruLookup (lru.filter q) fp = none := by
  unfold lruLookup at h ⊢
  cases hf : lru.find? (fun p => p.1 = fp) with
  | none =>
    have hall := List.find?_eq_none.mp hf
    rw [find?_eq_none_of_all (fun p hp => hall p (List.mem_filter.mp hp).1)]
    rfl
  | some p =>
    rw [hf] at h
    cases h

/-- `get` on a state whose LRU has no binding for the fingerprint and whose
`cache_entries` row exists returns the stored result. -/
theorem get_of_entry (s : Store) (fp : String) (e : StoredEntry)
    (hlru : lruLookup s.lru fp = none) (he : lookupEntry s fp = some e) :
    (get fp s).1 = e.result := by
  unfold get
  rw [hlru, he]

/-- `get` on a state with neither an LRU binding nor a row returns
`null`. -/
theorem get_of_absent (s : Store) (fp : String)
    (hlru : lruLookup s.lru fp = none) (he : lookupEntry s fp = none) :
    (get fp s).1 = Jv.null := by
  unfold get
  rw [hlru, he]

/-- Registering and reading back, when the LRU front has no binding for the
fingerprint. -/
theorem register_get_result (s : Store) (now : Int) (fp : String) (x : Jv)
    (k : CacheKey) (hlru : lruLookup s.lru fp = none) :
    (get fp (register now fp x k s)).1 = x :=
  get_of_entry _ _ _ (by rw [register_lru]; exact hlru)
    (register_lookupEntry_self now fp x k s)

/-! ### C2: round trip -/

/-- C2 counterexample: register `1` under the fingerprint, read it (which
loads it into the LRU front), then register `2` under the same fingerprint
and key; `get` still returns the stale `1`, because `register` never
touches the LRU and `get` consults the LRU first. -/
theorem c2_roundtrip_counterexample :
    (get "users:id=7:row-lookup"
      (register 1 "users:id=7:row-lookup" (Jv.num 2) keyId7
        (get "users:id=7:row-lookup"
          (register 0 "users:id=7:row-lookup" (Jv.num 1) keyId7
            emptyStore)).2)).1 = Jv.num 1 ∧
    Jv.num 1 ≠ Jv.num 2 := by decide

/-- C2 (amended): after `register(fp, x, k)`, `get(fp)` returns `x`
provided the in-process LRU front holds no binding for `fp` — `register`
does not evict the LRU, so a previously read result for the same
fingerprint would be returned instead. -/
theorem c2_roundtrip_amended (s : Store) (now : Int) (fp : String) (x : Jv)
    (k : CacheKey) (hlru : lruLookup s.lru fp = none) :
    (get fp (register now fp x k s)).1 = x :=
  register_get_result s now fp x k hlru

/-- C2 witness: the amended round trip on the empty store. -/
theorem c2_roundtrip_witness :
    (get "users:id=7:row-lookup"
      (register 0 "users:id=7:row-lookup" (Jv.num 5) keyId7 emptyStore)).1 =
      Jv.num 5 :=
  c2_roundtrip_amended emptyStore 0 _ (Jv.num 5) keyId7 (by decide)

/-! ### C10: stored null vs. cache miss -/

/-- C10: a result registered as `null` is returned as `null` by `get`, the
same value `get` returns for a fingerprint with no row at all — at the
public interface a stored null result is indistinguishable from a miss.
(The LRU front tests entries against `undefined`, not `null`, so it does
not change this.) -/
theorem c10_null_indistinguishable_from_miss (s s' : Store) (now : Int)
    (fp : String) (k : CacheKey)
    (hlru : lruLookup s.lru fp = none)
    (habsent : lookupEntry s' fp = none)
    (hlru' : lruLookup s'.lru fp = none) :
    (get fp (register now fp Jv.null k s)).1 = Jv.null ∧
    (get fp s').1 = Jv.null :=
  ⟨register_get_result s now fp Jv.null k hlru,
   get_of_absent s' fp hlru' habsent⟩

/-- C10 witness: registering `null` on the empty store and probing an
absent fingerprint both return `null`. -/
theorem c10_null_witness :
    (get "f" (register 0 "f" Jv.null keyId7 emptyStore)).1 = Jv.null ∧
    (get "f" emptyStore).1 = Jv.null :=
  c10_null_indistinguishable_from_miss emptyStore emptyStore 0 "f" keyId7
    (by decide) (by decide) (by decide)

/-! ### C1 and C3: invalidation correctness and precision -/

theorem exists_table_of_shouldInvalidate (k : CacheKey) (w : InvalidationInfo)
    (h : shouldInvalidate k w = true) :
    ∃ t, k.tables.find? (fun t => t.table = w.table) = some t := by
  unfold shouldInvalidate at h
  cases hfind : k.tables.find? (fun t => t.table = w.table) with
  | none => rw [hfind] at h; cases h
  | some t => exact ⟨t, rfl⟩

theorem isEmpty_false_of_mem {α : Type} {l : List α} {x : α} (h : x ∈ l) :
    ¬l.isEmpty = true := by
  cases l with
  | nil => cases h
  | cons a l => simp

/-- When some candidate is decided for deletion, `invalidate` performs the
batch delete of the filtered candidate set. -/
theorem invalidate_snd_of_mem (w : InvalidationInfo) (s : Store) (fp : String)
    (hcand : fp ∈ findAffectedFingerprints w s)
    (hdel : shouldDelete w s fp = true) :
    (invalidate w s).2 =
      deleteFingerprints
        ((findAffectedFingerprints w s).filter (shouldDelete w s)) s := by
  have hmemdel : fp ∈ (findAffectedFingerprints w s).filter (shouldDelete w s) :=
    List.mem_filter.mpr ⟨hcand, hdel⟩
  unfold invalidate
  rw [if_neg (isEmpty_false_of_mem hcand), if_neg (isEmpty_false_of_mem hmemdel)]

/-- A fingerprint the decider leaves alone keeps its row, its index rows,
and its (absent) LRU binding across `invalidate`. -/
theorem invalidate_preserves_of_not_deleted (w : InvalidationInfo) (s : Store)
    (fp : String) (hdel : shouldDelete w s fp = false) :
    lookupEntry (invalidate w s).2 fp = lookupEntry s fp ∧
    (lruLookup s.lru fp = none → lruLookup (invalidate w s).2.lru fp = none) ∧
    (∀ r ∈ s.tableIndex, r.2 = fp → r ∈ (invalidate w s).2.tableIndex) ∧
    (∀ r ∈ s.rowIndex, r.2.2 = fp → r ∈ (invalidate w s).2.rowIndex) ∧
    (∀ r ∈ s.columnIndex, r.2.2 = fp → r ∈ (invalidate w s).2.columnIndex) ∧
    (∀ r ∈ s.aggregateIndex, r.2 = fp → r ∈ (invalidate w s).2.aggregateIndex) := by
  have hnot : fp ∉ (findAffectedFingerprints w s).filter (shouldDelete w s) := by
    intro hmem
    rw [(List.mem_filter.mp hmem).2] at hdel
    cases hdel
  have hcases : (invalidate w s).2 = s ∨
      (invalidate w s).2 = deleteFingerprints
        ((findAffectedFingerprints w s).filter (shouldDelete w s)) s := by
    by_cases h1 : (findAffectedFingerprints w s).isEmpty
    · left; simp [invalidate, h1]
    · by_cases h2 :
        ((findAffectedFingerprints w s).filter (shouldDelete w s)).isEmpty
      · left; simp [invalidate, h1, h2]
      · right; simp [invalidate, h1, h2]
  rcases hcases with hcase | hcase <;> rw [hcase]
  · exact ⟨rfl, fun h => h, fun r hr _ => hr, fun r hr _ => hr,
      fun r hr _ => hr, fun r hr _ => hr⟩
  · refine ⟨lookupEntry_deleteFingerprints_of_not_mem _ _ _ hnot,
      fun h => lruLookup_filter_of_none _ _ h,
      fun r hr hr2 => List.mem_filter.mpr ⟨hr, ?_⟩,
      fun r hr hr2 => List.mem_filter.mpr ⟨hr, ?_⟩,
      fun r hr hr2 => List.mem_filter.mpr ⟨hr, ?_⟩,
      fun r hr hr2 => List.mem_filter.mpr ⟨hr, ?_⟩⟩ <;>
    · rw [hr2]
      exact decide_eq_true hnot

/-- C1: when the decider is positive, `invalidate` after `register` removes
both the database row and the LRU binding for the fingerprint — the
candidate enumeration always includes it through the table index — and a
subsequent `get` reports absent (`null`). -/
theorem c1_invalidation_positive (s : Store) (now : Int) (fp : String)
    (x : Jv) (k : CacheKey) (w : InvalidationInfo)
    (h : shouldInvalidate k w = true) :
    lookupEntry (invalidate w (register now fp x k s)).2 fp = none ∧
    lruLookup (invalidate w (register now fp x k s)).2.lru fp = none ∧
    (get fp (invalidate w (register now fp x k s)).2).1 = Jv.null := by
  obtain ⟨t, hfind⟩ := exists_table_of_shouldInvalidate k w h
  have htmem := List.mem_of_find?_eq_some hfind
  have htt : t.table = w.table := by simpa using List.find?_some hfind
  have hidx : (w.table, fp) ∈ (register now fp x k s).tableIndex :=
    htt ▸ register_tableIndex_mem now fp x k s t htmem
  have hcand : fp ∈ findAffectedFingerprints w (register now fp x k s) :=
    mem_findAffected_of_tableIndex w _ fp hidx
  have hlook : lookupEntry (register now fp x k s) fp = some ⟨fp, x, k, now⟩ :=
    register_lookupEntry_self now fp x k s
  have hdel : shouldDelete w (register now fp x k s) fp = true := by
    unfold shouldDelete
    rw [hlook]
    exact h
  have hsnd := invalidate_snd_of_mem w (register now fp x k s) fp hcand hdel
  have hmemdel : fp ∈ (findAffectedFingerprints w (register now fp x k s)).filter
      (shouldDelete w (register now fp x k s)) :=
    List.mem_filter.mpr ⟨hcand, hdel⟩
  rw [hsnd]
  refine ⟨lookupEntry_deleteFingerprints_of_mem _ _ _ hmemdel,
    lruLookup_deleteFingerprints_of_mem _ _ _ hmemdel, ?_⟩
  exact get_of_absent _ _ (lruLookup_deleteFingerprints_of_mem _ _ _ hmemdel)
    (lookupEntry_deleteFingerprints_of_mem _ _ _ hmemdel)

/-- C1 witness: registering under `keyId7` and invalidating with a DELETE
on `users` with no WHERE clause removes the entry. -/
theorem c1_invalidation_positive_witness :
    lookupEntry
      (invalidate ⟨"users", "DELETE", none, none, some []⟩
        (register 0 "users:id=7:row-lookup" (Jv.num 1) keyId7 emptyStore)).2
      "users:id=7:row-lookup" = none ∧
    lruLookup
      (invalidate ⟨"users", "DELETE", none, none, some []⟩
        (register 0 "users:id=7:row-lookup" (Jv.num 1) keyId7 emptyStore)).2.lru
      "users:id=7:row-lookup" = none ∧
    (get "users:id=7:row-lookup"
      (invalidate ⟨"users", "DELETE", none, none, some []⟩
        (register 0 "users:id=7:row-lookup" (Jv.num 1) keyId7 emptyStore)).2).1 =
      Jv.null :=
  c1_invalidation_positive emptyStore 0 "users:id=7:row-lookup" (Jv.num 1)
    keyId7 ⟨"users", "DELETE", none, none, some []⟩ (by decide)

/-- C3: when the decider is negative, `invalidate` after `register` leaves
the fingerprint's `cache_entries` row (including its timestamp) unchanged,
removes none of its rows from the four secondary index tables, and `get`
still returns the registered result. -/
theorem c3_invalidation_negative (s : Store) (now : Int) (fp : String)
    (x : Jv) (k : CacheKey) (w : InvalidationInfo)
    (hfalse : shouldInvalidate k w = false)
    (hlru : lruLookup s.lru fp = none) :
    (get fp (invalidate w (register now fp x k s)).2).1 = x ∧
    lookupEntry (invalidate w (register now fp x k s)).2 fp =
      some ⟨fp, x, k, now⟩ ∧
    (∀ r ∈ (register now fp x k s).tableIndex, r.2 = fp →
      r ∈ (invalidate w (register now fp x k s)).2.tableIndex) ∧
    (∀ r ∈ (register now fp x k s).rowIndex, r.2.2 = fp →
      r ∈ (invalidate w (register now fp x k s)).2.rowIndex) ∧
    (∀ r ∈ (register now fp x k s).columnIndex, r.2.2 = fp →
      r ∈ (invalidate w (register now fp x k s)).2.columnIndex) ∧
    (∀ r ∈ (register now fp x k s).aggregateIndex, r.2 = fp →
      r ∈ (invalidate w (register now fp x k s)).2.aggregateIndex) := by
  have hlook : lookupEntry (register now fp x k s) fp = some ⟨fp, x, k, now⟩ :=
    register_lookupEntry_self now fp x k s
  have hdel : shouldDelete w (register now fp x k s) fp = false := by
    unfold shouldDelete
    rw [hlook]
    exact hfalse
  obtain ⟨hent, hlrup, htab, hrow, hcol, hagg⟩ :=
    invalidate_preserves_of_not_deleted w (register now fp x k s) fp hdel
  have hlru1 : lruLookup (register now fp x k s).lru fp = none := by
    rw [register_lru]; exact hlru
  refine ⟨?_, hent.trans hlook, htab, hrow, hcol, hagg⟩
  exact get_of_entry _ _ _ (hlrup hlru1) (hent.trans hlook)

/-- C3 witness: an UPDATE of `email` on another row does not disturb the
cached `SELECT name FROM users WHERE id = 7`-style entry. -/
theorem c3_invalidation_negative_witness :
    (get "users:id=7:row-lookup"
      (invalidate ⟨"orders", "DELETE", none, none, some []⟩
        (register 0 "users:id=7:row-lookup" (Jv.num 1) keyId7 emptyStore)).2).1 =
      Jv.num 1 :=
  (c3_invalidation_negative emptyStore 0 "users:id=7:row-lookup" (Jv.num 1)
    keyId7 ⟨"orders", "DELETE", none, none, some []⟩ (by decide) (by decide)).1

/-! ### C9: index rows are never orphaned -/

theorem mem_foldl_insertIgnore_image {α β : Type} [DecidableEq α]
    (g : β → α) (l : List β) (acc : List α) (x : α) :
    x ∈ l.foldl (fun idx b => insertIgnore idx (g b)) acc ↔
      x ∈ acc ∨ ∃ b ∈ l, x = g b := by
  induction l generalizing acc with
  | nil => simp
  | cons y ys ih =>
    simp only [List.foldl_cons, ih, mem_insertIgnore, List.mem_cons]
    constructor
    · rintro ((hx | rfl) | ⟨b, hb, rfl⟩)
      · exact Or.inl hx
      · exact Or.inr ⟨y, Or.inl rfl, rfl⟩
      · exact Or.inr ⟨b, Or.inr hb, rfl⟩
    · rintro (hx | ⟨b, hb | hb, rfl⟩)
      · exact Or.inl (Or.inl hx)
      · subst hb; exact Or.inl (Or.inr rfl)
      · exact Or.inr ⟨b, hb, rfl⟩

theorem registerRows_rowIndex_sub (f tbl : String)
    (conds : Option (List Condition)) (s : Store) (r : String × String × String)
    (hr : r ∈ (registerRows f tbl conds s).rowIndex) :
    r ∈ s.rowIndex ∨ r.2.2 = f := by
  unfold registerRows at hr
  split at hr
  · split at hr
    · split at hr
      · rw [mem_foldl_insertIgnore_image] at hr
        rcases hr with hr | ⟨b, _, rfl⟩
        · exact Or.inl hr
        · exact Or.inr rfl
      · exact Or.inl hr
    · exact Or.inl hr
  · exact Or.inl hr

theorem registerCols_columnIndex_sub (f tbl : String) (cols : List String)
    (s : Store) (r : String × String × String)
    (hr : r ∈ (registerCols f tbl cols s).columnIndex) :
    r ∈ s.columnIndex ∨ r.2.2 = f := by
  unfold registerCols at hr
  split at hr
  · exact Or.inl hr
  · rw [mem_foldl_insertIgnore_image] at hr
    rcases hr with hr | ⟨b, _, rfl⟩
    · exact Or.inl hr
    · exact Or.inr rfl

theorem registerAgg_aggregateIndex_sub (f : String) (k : CacheKey)
    (tbl : String) (s : Store) (r : String × String)
    (hr : r ∈ (registerAgg f k tbl s).aggregateIndex) :
    r ∈ s.aggregateIndex ∨ r.2 = f := by
  unfold registerAgg at hr
  split at hr
  · rcases mem_insertIgnore.mp hr with hr | rfl
    · exact Or.inl hr
    · exact Or.inr rfl
  · exact Or.inl hr

theorem registerTable_tableIndex_sub (f : String) (k : CacheKey)
    (t : TableAccess) (s : Store) (r : String × String)
    (hr : r ∈ (registerTable f k t s).tableIndex) :
    r ∈ s.tableIndex ∨ r.2 = f := by
  rw [registerTable_tableIndex] at hr
  rcases mem_insertIgnore.mp hr with hr | rfl
  · exact Or.inl hr
  · exact Or.inr rfl

theorem registerTable_rowIndex_sub (f : String) (k : CacheKey)
    (t : TableAccess) (s : Store) (r : String × String × String)
    (hr : r ∈ (registerTable f k t s).rowIndex) :
    r ∈ s.rowIndex ∨ r.2.2 = f := by
  unfold registerTable at hr
  rw [(registerAgg_fields _ _ _ _).2.2.2.1, (registerCols_fields _ _ _ _).2.2.2.1]
    at hr
  have h2 := registerRows_rowIndex_sub f t.table t.conditions
    { s with tableIndex := insertIgnore s.tableIndex (t.table, f) } r hr
  exact h2

theorem registerTable_columnIndex_sub (f : String) (k : CacheKey)
    (t : TableAccess) (s : Store) (r : String × String × String)
    (hr : r ∈ (registerTable f k t s).columnIndex) :
    r ∈ s.columnIndex ∨ r.2.2 = f := by
  unfold registerTable at hr
  rw [(registerAgg_fields _ _ _ _).2.2.2.2] at hr
  rcases registerCols_columnIndex_sub _ _ _ _ _ hr with hr | hf
  · rw [(registerRows_fields _ _ _ _).2.2.2.1] at hr
    exact Or.inl hr
  · exact Or.inr hf

theorem registerTable_aggregateIndex_sub (f : String) (k : CacheKey)
    (t : TableAccess) (s : Store) (r : String × String)
    (hr : r ∈ (registerTable f k t s).aggregateIndex) :
    r ∈ s.aggregateIndex ∨ r.2 = f := by
  unfold registerTable at hr
  rcases registerAgg_aggregateIndex_sub _ _ _ _ _ hr with hr | hf
  · rw [(registerCols_fields _ _ _ _).2.2.2.2,
      (registerRows_fields _ _ _ _).2.2.2.2] at hr
    exact Or.inl hr
  · exact Or.inr hf

theorem registerFold_tableIndex_sub (f : String) (k : CacheKey)
    (ts : List TableAccess) (s : Store) (r : String × String)
    (hr : r ∈ (ts.foldl (fun s t => registerTable f k t s) s).tableIndex) :
    r ∈ s.tableIndex ∨ r.2 = f := by
  induction ts generalizing s with
  | nil => exact Or.inl hr
  | cons t ts ih =>
    rw [List.foldl_cons] at hr
    rcases ih (registerTable f k t s) hr with hr | hf
    · exact registerTable_tableIndex_sub f k t s r hr
    · exact Or.inr hf

theorem registerFold_rowIndex_sub (f : String) (k : CacheKey)
    (ts : List TableAccess) (s : Store) (r : String × String × String)
    (hr : r ∈ (ts.foldl (fun s t => registerTable f k t s) s).rowIndex) :
    r ∈ s.rowIndex ∨ r.2.2 = f := by
  induction ts generalizing s with
  | nil => exact Or.inl hr
  | cons t ts ih =>
    rw [List.foldl_cons] at hr
    rcases ih (registerTable f k t s) hr with hr | hf
    · exact registerTable_rowIndex_sub f k t s r hr
    · exact Or.inr hf

theorem registerFold_columnIndex_sub (f : String) (k : CacheKey)
    (ts : List TableAccess) (s : Store) (r : String × String × String)
    (hr : r ∈ (ts.foldl (fun s t => registerTable f k t s) s).columnIndex) :
    r ∈ s.columnIndex ∨ r.2.2 = f := by
  induction ts generalizing s with
  | nil => exact Or.inl hr
  | cons t ts ih =>
    rw [List.foldl_cons] at hr
    rcases ih (registerTable f k t s) hr with hr | hf
    · exact registerTable_columnIndex_sub f k t s r hr
    · exact Or.inr hf

theorem registerFold_aggregateIndex_sub (f : String) (k : CacheKey)
    (ts : List TableAccess) (s : Store) (r : String × String)
    (hr : r ∈ (ts.foldl (fun s t => registerTable f k t s) s).aggregateIndex) :
    r ∈ s.aggregateIndex ∨ r.2 = f := by
  induction ts generalizing s with
  | nil => exact Or.inl hr
  | cons t ts ih =>
    rw [List.foldl_cons] at hr
    rcases ih (registerTable f k t s) hr with hr | hf
    · exact registerTable_aggregateIndex_sub f k t s r hr
    · exact Or.inr hf

theorem register_lookupEntry_other (now : Int) (fp : String) (x : Jv)
    (k : CacheKey) (s : Store) (fp' : String) (h : fp' ≠ fp) :
    lookupEntry (register now fp x k s) fp' = lookupEntry s fp' := by
  unfold lookupEntry
  rw [register_cacheEntries]
  unfold upsertEntry
  rw [List.find?_append]
  rw [find?_filter_of_imp _ _ _ (fun e hpe => by
    rw [of_decide_eq_true hpe]; exact decide_eq_true h)]
  cases hfind : s.cacheEntries.find? (fun e => e.fingerprint = fp') with
  | none => simp [List.find?, decide_eq_false (Ne.symm h)]
  | some e => simp

theorem register_lookupEntry_isSome (now : Int) (fp : String) (x : Jv)
    (k : CacheKey) (s : Store) (fp' : String)
    (h : (lookupEntry s fp').isSome = true) :
    (lookupEntry (register now fp x k s) fp').isSome = true := by
  by_cases heq : fp' = fp
  · subst heq
    rw [register_lookupEntry_self]
    rfl
  · rw [register_lookupEntry_other now fp x k s fp' heq]
    exact h

theorem register_preserves_IndexOwned (now : Int) (fp : String) (x : Jv)
    (k : CacheKey) (s : Store) (h : IndexOwned s) :
    IndexOwned (register now fp x k s) := by
  obtain ⟨htab, hrow, hcol, hagg⟩ := h
  have hown : ∀ fp', fp' = fp ∨ (lookupEntry s fp').isSome = true →
      (lookupEntry (register now fp x k s) fp').isSome = true := by
    rintro fp' (rfl | hs)
    · rw [register_lookupEntry_self]; rfl
    · exact register_lookupEntry_isSome now fp x k s fp' hs
  refine ⟨fun r hr => ?_, fun r hr => ?_, fun r hr => ?_, fun r hr => ?_⟩
  · rcases registerFold_tableIndex_sub fp k k.tables _ r hr with hr' | hf
    · exact hown r.2 (Or.inr (htab r hr'))
    · exact hown r.2 (Or.inl hf)
  · rcases registerFold_rowIndex_sub fp k k.tables _ r hr with hr' | hf
    · exact hown r.2.2 (Or.inr (hrow r hr'))
    · exact hown r.2.2 (Or.inl hf)
  · rcases registerFold_columnIndex_sub fp k k.tables _ r hr with hr' | hf
    · exact hown r.2.2 (Or.inr (hcol r hr'))
    · exact hown r.2.2 (Or.inl hf)
  · rcases registerFold_aggregateIndex_sub fp k k.tables _ r hr with hr' | hf
    · exact hown r.2 (Or.inr (hagg r hr'))
    · exact hown r.2 (Or.inl hf)

theorem deleteFingerprints_preserves_IndexOwned (dels : List String)
    (s : Store) (h : IndexOwned s) :
    IndexOwned (deleteFingerprints dels s) := by
  obtain ⟨htab, hrow, hcol, hagg⟩ := h
  have hlook : ∀ fp, fp ∉ dels → (lookupEntry s fp).isSome = true →
      (lookupEntry (deleteFingerprints dels s) fp).isSome = true := by
    intro fp hnd hs
    rw [lookupEntry_deleteFingerprints_of_not_mem dels s fp hnd]
    exact hs
  refine ⟨fun r hr => ?_, fun r hr => ?_, fun r hr => ?_, fun r hr => ?_⟩
  · obtain ⟨hr', hnd⟩ := List.mem_filter.mp hr
    exact hlook r.2 (of_decide_eq_true hnd) (htab r hr')
  · obtain ⟨hr', hnd⟩ := List.mem_filter.mp hr
    exact hlook r.2.2 (of_decide_eq_true hnd) (hrow r hr')
  · obtain ⟨hr', hnd⟩ := List.mem_filter.mp hr
    exact hlook r.2.2 (of_decide_eq_true hnd) (hcol r hr')
  · obtain ⟨hr', hnd⟩ := List.mem_filter.mp hr
    exact hlook r.2 (of_decide_eq_true hnd) (hagg r hr')

theorem invalidate_preserves_IndexOwned (w : InvalidationInfo) (s : Store)
    (h : IndexOwned s) : IndexOwned (invalidate w s).2 := by
  have hcases : (invalidate w s).2 = s ∨
      (invalidate w s).2 = deleteFingerprints
        ((findAffectedFingerprints w s).filter (shouldDelete w s)) s := by
    by_cases h1 : (findAffectedFingerprints w s).isEmpty
    · left; simp [invalidate, h1]
    · by_cases h2 :
        ((findAffectedFingerprints w s).filter (shouldDelete w s)).isEmpty
      · left; simp [invalidate, h1, h2]
      · right; simp [invalidate, h1, h2]
  rcases hcases with hcase | hcase <;> rw [hcase]
  · exact h
  · exact deleteFingerprints_preserves_IndexOwned _ _ h

theorem clearTable_preserves_IndexOwned (t : String) (s : Store)
    (h : IndexOwned s) : IndexOwned (clearTable t s).2 := by
  have hcases : (clearTable t s).2 = s ∨
      (clearTable t s).2 = deleteFingerprints
        ((s.tableIndex.filter (fun r => r.1 = t)).map (·.2)) s := by
    by_cases h1 : ((s.tableIndex.filter (fun r => r.1 = t)).map (·.2)).isEmpty
    · left; simp [clearTable, h1]
    · right; simp [clearTable, h1]
  rcases hcases with hcase | hcase <;> rw [hcase]
  · exact h
  · exact deleteFingerprints_preserves_IndexOwned _ _ h

/-- C9: in every store state reachable from the empty store by `register`,
`invalidate` and `clearTable`, every row of each of the four secondary
index tables carries a fingerprint that is the primary key of an existing
`cache_entries` row — index rows are never orphaned, because every deletion
path removes a fingerprint's index rows in the same transaction as its
cache entry. -/
theorem c9_index_rows_never_orphaned (s : Store) (h : Reachable s) :
    IndexOwned s := by
  induction h with
  | empty =>
    refine ⟨?_, ?_, ?_, ?_⟩ <;>
    · intro r hr
      cases hr
  | register now fp x k s _ ih => exact register_preserves_IndexOwned now fp x k s ih
  | invalidate w s _ ih => exact invalidate_preserves_IndexOwned w s ih
  | clearTable t s _ ih => exact clearTable_preserves_IndexOwned t s ih

/-- C9 witness: the invariant at a concrete reachable state (register, then
a non-matching invalidate). -/
theorem c9_index_rows_witness :
    IndexOwned (invalidate ⟨"orders", "DELETE", none, none, some []⟩
      (register 0 "users:id=7:row-lookup" (Jv.num 1) keyId7 emptyStore)).2 :=
  c9_index_rows_never_orphaned _
    (Reachable.invalidate _ _
      (Reachable.register 0 "users:id=7:row-lookup" (Jv.num 1) keyId7
        emptyStore Reachable.empty))

/-! ### C8 machinery: order lemmas for the string comparison -/

theorem charLt_asymm {a b : Char} (h : charLt a b = true) : charLt b a = false := by
  simp [charLt] at *; omega

theorem charLt_eq {a b : Char} (h1 : charLt a b = false) (h2 : charLt b a = false) :
    a = b := by
  simp [charLt] at h1 h2
  exact Char.eq_of_val_eq (UInt32.ext (Nat.le_antisymm h2 h1))

theorem strLtList_asymm : ∀ a b : List Char,
    strLtList a b = true → strLtList b a = false
  | [], [] => by simp [strLtList]
  | [], _ :: _ => by simp [strLtList]
  | _ :: _, [] => by simp [strLtList]
  | a :: as, b :: bs => by
    by_cases hab : charLt a b = true
    · simp [strLtList, hab, charLt_asymm hab]
    · by_cases hba : charLt b a = true
      · simp [strLtList, hab, hba]
      · simp only [strLtList, if_neg hab, if_neg hba]
        exact strLtList_asymm as bs

theorem strLtList_eq : ∀ a b : List Char,
    strLtList a b = false → strLtList b a = false → a = b
  | [], [] => by simp
  | [], _ :: _ => by simp [strLtList]
  | _ :: _, [] => by simp [strLtList]
  | a :: as, b :: bs => by
    by_cases hab : charLt a b = true
    · simp [strLtList, hab]
    · by_cases hba : charLt b a = true
      · simp [strLtList, hba]
      · simp only [strLtList, if_neg hab, if_neg hba]
        intro h1 h2
        have hab' : charLt a b = false := by simpa using hab
        have hba' : charLt b a = false := by simpa using hba
        rw [charLt_eq hab' hba', strLtList_eq as bs h1 h2]

theorem strLtList_trans : ∀ a b c : List Char,
    strLtList a b = true → strLtList b c = true → strLtList a c = true
  | [], b, c => by cases b <;> cases c <;> simp [strLtList]
  | a :: as, b, [] => by cases b <;> simp [strLtList]
  | a :: as, [], c :: cs => by simp [strLtList]
  | a :: as, b :: bs, c :: cs => by
    intro h1 h2
    by_cases hab : charLt a b = true <;> by_cases hbc : charLt b c = true
    · have hac : charLt a c = true := by simp [charLt] at *; omega
      simp [strLtList, hac]
    · by_cases hcb : charLt c b = true
      · simp [strLtList, hbc, hcb] at h2
      · have hac : charLt a c = true := by simp [charLt] at *; omega
        simp [strLtList, hac]
    · by_cases hba : charLt b a = true
      · simp [strLtList, hab, hba] at h1
      · have hac : charLt a c = true := by simp [charLt] at *; omega
        simp [strLtList, hac]
    · by_cases hba : charLt b a = true
      · simp [strLtList, hab, hba] at h1
      · by_cases hcb : charLt c b = true
        · simp [strLtList, hbc, hcb] at h2
        · simp only [strLtList, if_neg hab, if_neg hba] at h1
          simp only [strLtList, if_neg hbc, if_neg hcb] at h2
          have hac : charLt a c = false := by simp [charLt] at *; omega
          have hca : charLt c a = false := by simp [charLt] at *; omega
          simp only [strLtList, if_neg (by simp [hac] : ¬charLt a c = true),
            if_neg (by simp [hca] : ¬charLt c a = true)]
          exact strLtList_trans as bs cs h1 h2

theorem strLeB_total (a b : String) : strLeB a b = true ∨ strLeB b a = true := by
  by_cases h : strLtList b.data a.data = true
  · right; simp [strLeB, strLtList_asymm _ _ h]
  · left; simp [strLeB]; simpa using h

theorem strLeB_antisymm {a b : String} (h1 : strLeB a b = true)
    (h2 : strLeB b a = true) : a = b := by
  simp [strLeB] at h1 h2
  have h := strLtList_eq a.data b.data h2 h1
  cases a; cases b; exact congrArg String.mk h

theorem strLeB_trans {a b c : String} (h1 : strLeB a b = true)
    (h2 : strLeB b c = true) : strLeB a c = true := by
  simp [strLeB] at *
  by_cases hca : strLtList c.data a.data = true
  · by_cases hcb : strLtList c.data b.data = true
    · exact absurd hcb (by simp [h2])
    · by_cases hbc : strLtList b.data c.data = true
      · exact absurd (strLtList_trans _ _ _ hbc hca) (by simp [h1])
      · have h : b.data = c.data :=
          strLtList_eq b.data c.data (by simpa using hbc) (by simpa using hcb)
        rw [← h] at hca
        exact absurd hca (by simp [h1])
  · simpa using hca

/-! ### C8 machinery: the stable insertion sort -/

theorem insertByKey_perm {α : Type} (key : α → String) (x : α) :
    ∀ l : List α, (insertByKey key x l).Perm (x :: l)
  | [] => List.Perm.refl _
  | y :: ys => by
    by_cases h : strLeB (key y) (key x) = true
    · simp only [insertByKey, if_pos h]
      exact ((insertByKey_perm key x ys).cons y).trans (List.Perm.swap x y ys)
    · simp only [insertByKey, if_neg h]
      exact List.Perm.refl _

theorem sortByKey_foldl_perm {α : Type} (key : α → String) :
    ∀ (l acc : List α),
      (l.foldl (fun acc x => insertByKey key x acc) acc).Perm (l ++ acc)
  | [], acc => by simp
  | x :: xs, acc => by
    simp only [List.foldl_cons, List.cons_append]
    refine (sortByKey_foldl_perm key xs _).trans ?_
    refine (List.Perm.append_left xs (insertByKey_perm key x acc)).trans ?_
    exact List.perm_middle

theorem sortByKey_perm {α : Type} (key : α → String) (l : List α) :
    (sortByKey key l).Perm l := by
  simpa using sortByKey_foldl_perm key l []

theorem mem_insertByKey {α : Type} {key : α → String} {x z : α} {l : List α} :
    z ∈ insertByKey key x l ↔ z = x ∨ z ∈ l := by
  rw [(insertByKey_perm key x l).mem_iff]; simp

theorem insertByKey_keySorted {α : Type} (key : α → String) (x : α) :
    ∀ l : List α, KeySorted key l → KeySorted key (insertByKey key x l)
  | [], _ => by simp [insertByKey, KeySorted]
  | y :: ys, h => by
    rw [KeySorted, List.pairwise_cons] at h
    by_cases hyx : strLeB (key y) (key x) = true
    · simp only [insertByKey, if_pos hyx]
      rw [KeySorted, List.pairwise_cons]
      constructor
      · intro z hz
        rcases mem_insertByKey.mp hz with rfl | hz
        · exact hyx
        · exact h.1 z hz
      · exact insertByKey_keySorted key x ys h.2
    · simp only [insertByKey, if_neg hyx]
      have hxy : strLeB (key x) (key y) = true := by
        rcases strLeB_total (key x) (key y) with h' | h'
        · exact h'
        · exact absurd h' hyx
      rw [KeySorted, List.pairwise_cons]
      refine ⟨?_, List.Pairwise.cons h.1 h.2⟩
      intro z hz
      rcases List.mem_cons.mp hz with rfl | hz
      · exact hxy
      · exact strLeB_trans hxy (h.1 z hz)

theorem sortByKey_foldl_keySorted {α : Type} (key : α → String) :
    ∀ (l acc : List α), KeySorted key acc →
      KeySorted key (l.foldl (fun acc x => insertByKey key x acc) acc)
  | [], _, h => h
  | x :: xs, acc, h => by
    simp only [List.foldl_cons]
    exact sortByKey_foldl_keySorted key xs _ (insertByKey_keySorted key x acc h)

theorem sortByKey_keySorted {α : Type} (key : α → String) (l : List α) :
    KeySorted key (sortByKey key l) :=
  sortByKey_foldl_keySorted key l [] List.Pairwise.nil

theorem keySorted_perm_eq {α : Type} (key : α → String) :
    ∀ l l' : List α, l.Perm l' → KeySorted key l → KeySorted key l' →
      (∀ a ∈ l, ∀ b ∈ l, key a = key b → a = b) → l = l'
  | [], l', hp, _, _, _ => by simpa using hp.nil_eq
  | a :: as, l', hp, hs, hs', hinj => by
    match l', hp with
    | [], hp => exact absurd hp.symm.nil_eq (by simp)
    | b :: bs, hp => ?_
    have hab : a = b := by
      by_cases hne : a = b
      · exact hne
      · have ha' : a ∈ b :: bs := hp.mem_iff.mp (List.mem_cons_self a as)
        have hb' : b ∈ a :: as := hp.symm.mem_iff.mp (List.mem_cons_self b bs)
        have ha2 : a ∈ bs := by
          rcases List.mem_cons.mp ha' with h | h
          · exact absurd h hne
          · exact h
        have hb2 : b ∈ as := by
          rcases List.mem_cons.mp hb' with h | h
          · exact absurd h.symm hne
          · exact h
        rw [KeySorted, List.pairwise_cons] at hs hs'
        have h1 : strLeB (key a) (key b) = true := hs.1 b hb2
        have h2 : strLeB (key b) (key a) = true := hs'.1 a ha2
        exact hinj a (List.mem_cons_self a as) b hb' (strLeB_antisymm h1 h2)
    subst hab
    have hp' : as.Perm bs := hp.cons_inv
    rw [keySorted_perm_eq key as bs hp'
      ((List.pairwise_cons.mp hs).2) ((List.pairwise_cons.mp hs').2)
      (fun x hx y hy hk => hinj x (List.mem_cons_of_mem a hx)
        y (List.mem_cons_of_mem a hy) hk)]

theorem sortByKey_perm_eq {α : Type} (key : α → String) (l l' : List α)
    (hp : l.Perm l')
    (hinj : ∀ a ∈ l, ∀ b ∈ l, key a = key b → a = b) :
    sortByKey key l = sortByKey key l' := by
  refine keySorted_perm_eq key _ _ ?_ (sortByKey_keySorted key l)
    (sortByKey_keySorted key l') ?_
  · exact (sortByKey_perm key l).trans (hp.trans (sortByKey_perm key l').symm)
  · intro a ha b hb hk
    exact hinj a ((sortByKey_perm key l).mem_iff.mp ha)
      b ((sortByKey_perm key l).mem_iff.mp hb) hk

theorem perm_pair_cases {α : Type} {a b : α} :
    ∀ {l : List α}, l.Perm [a, b] → l = [a, b] ∨ l = [b, a]
  | [], h => by simpa using h.length_eq
  | [_], h => by simpa using h.length_eq
  | _ :: _ :: _ :: _, h => by simpa using h.length_eq
  | [x, y], h => by
    have hx : x ∈ [a, b] := h.mem_iff.mp (by simp)
    rcases List.mem_cons.mp hx with h1 | hx'
    · left
      rw [h1] at h ⊢
      have h2 := h.cons_inv
      rw [List.perm_singleton.mp h2]
    · have h1 : x = b := List.mem_singleton.mp (by simpa using hx')
      right
      rw [h1] at h ⊢
      have h2 := (h.trans (List.Perm.swap b a [])).cons_inv
      rw [List.perm_singleton.mp h2]

theorem forall₂_head? {α β : Type} {R : α → β → Prop} :
    ∀ {l : List α} {l' : List β}, List.Forall₂ R l l' →
      (l.head? = none ∧ l'.head? = none) ∨
      ∃ a b, l.head? = some a ∧ l'.head? = some b ∧ R a b
  | _, _, .nil => .inl ⟨rfl, rfl⟩
  | _, _, .cons h _ => .inr ⟨_, _, rfl, rfl, h⟩

/-! ### C8 machinery: sort-safety of a value list -/

theorem sortSafe_inj {xs : List Jv} (h : sortSafe xs = true) :
    ∀ a ∈ xs, ∀ b ∈ xs, jsString a = jsString b → a = b := by
  simp only [sortSafe, Bool.and_eq_true, List.all_eq_true,
    decide_eq_true_eq] at h
  exact h.2

theorem sortSafe_homog {xs : List Jv} (h : sortSafe xs = true) :
    xs.all jvIsNum = true ∨ xs.all jvIsStr = true := by
  simp only [sortSafe, Bool.and_eq_true, Bool.or_eq_true] at h
  exact h.1

theorem jsSortValues_perm_eq {xs xs' : List Jv} (hp : xs.Perm xs')
    (hs : sortSafe xs = true) : jsSortValues xs = jsSortValues xs' :=
  sortByKey_perm_eq jsString xs xs' hp (sortSafe_inj hs)

theorem sortIfNeededJv_pair_swap {a b : Jv}
    (h : (jvIsNum a = true ∧ jvIsNum b = true) ∨
         (jvIsStr a = true ∧ jvIsStr b = true)) :
    sortIfNeededJv [a, b] = sortIfNeededJv [b, a] := by
  rcases h with ⟨ha, hb⟩ | ⟨ha, hb⟩
  · match a, b, ha, hb with
    | Jv.num m, Jv.num n, _, _ =>
      rcases lt_trichotomy m n with h | h | h
      · have h1 : jsGt (Jv.num m) (Jv.num n) = false := by
          simp [jsGt, jsToNum]; omega
        have h2 : jsGt (Jv.num n) (Jv.num m) = true := by
          simp [jsGt, jsToNum]; omega
        simp [sortIfNeededJv, h1, h2]
      · subst h
        simp [sortIfNeededJv]
      · have h1 : jsGt (Jv.num m) (Jv.num n) = true := by
          simp [jsGt, jsToNum]; omega
        have h2 : jsGt (Jv.num n) (Jv.num m) = false := by
          simp [jsGt, jsToNum]; omega
        simp [sortIfNeededJv, h1, h2]
  · match a, b, ha, hb with
    | Jv.str s, Jv.str t, _, _ =>
      by_cases hst : strLtList s.data t.data = true
      · have h1 : jsGt (Jv.str s) (Jv.str t) = false := by
          simp [jsGt, strLtB, strLtList_asymm _ _ hst]
        have h2 : jsGt (Jv.str t) (Jv.str s) = true := by
          simp [jsGt, strLtB, hst]
        simp [sortIfNeededJv, h1, h2]
      · by_cases hts : strLtList t.data s.data = true
        · have h1 : jsGt (Jv.str s) (Jv.str t) = true := by
            simp [jsGt, strLtB, hts]
          have h2 : jsGt (Jv.str t) (Jv.str s) = false := by
            simp [jsGt, strLtB, strLtList_asymm _ _ hts]
          simp [sortIfNeededJv, h1, h2]
        · have h : s = t := by
            have h := strLtList_eq s.data t.data (by simpa using hst)
              (by simpa using hts)
            cases s; cases t; exact congrArg String.mk h
          subst h
          rfl

theorem sortIfNeededJv_perm_eq : ∀ {xs xs' : List Jv}, xs.Perm xs' →
    sortSafe xs = true → sortIfNeededJv xs = sortIfNeededJv xs'
  | [], _, hp, _ => by rw [← hp.nil_eq]
  | [a], xs', hp, _ => by rw [List.perm_singleton.mp hp.symm]
  | [a, b], xs', hp, hs => by
    rcases perm_pair_cases hp.symm with h | h
    · rw [h]
    · rw [h]
      apply sortIfNeededJv_pair_swap
      rcases sortSafe_homog hs with hh | hh
      · left
        simp only [List.all_cons, List.all_nil, Bool.and_eq_true] at hh
        exact ⟨hh.1, hh.2.1⟩
      · right
        simp only [List.all_cons, List.all_nil, Bool.and_eq_true] at hh
        exact ⟨hh.1, hh.2.1⟩
  | a :: b :: c :: rest, xs', hp, hs => by
    have hlen := hp.length_eq
    match xs' with
    | [] => simp at hlen
    | [_] => simp at hlen
    | [_, _] => simp [List.length_cons] at hlen
    | a' :: b' :: c' :: rest' =>
      show jsSortValues (a :: b :: c :: rest) = jsSortValues (a' :: b' :: c' :: rest')
      exact jsSortValues_perm_eq hp hs

/-! ### C8 machinery: congruence of the canonical record -/

theorem normValue_rel {op : String} {v v' : Jv} (h : ValueRel op v v') :
    normValue v = normValue v' := by
  rcases h with rfl | ⟨-, xs, xs', rfl, rfl, hperm, hsafe⟩
  · rfl
  · simp only [normValue]
    rw [sortIfNeededJv_perm_eq hperm hsafe]

theorem normConditions_rel : ∀ {cs cs' : List Condition}, CondsRel cs cs' →
    normConditions cs = normConditions cs' := by
  have hmap : ∀ {cs cs' : List Condition}, CondsRel cs cs' →
      cs.map (fun c => (c.column, c.operator, normValue c.value)) =
      cs'.map (fun c => (c.column, c.operator, normValue c.value)) := by
    intro cs cs' h
    induction h with
    | nil => rfl
    | cons hcc _ ih =>
      obtain ⟨h1, h2, h3⟩ := hcc
      simp only [List.map_cons, ih]
      rw [h1, h2, normValue_rel h3]
  intro cs cs' h
  simp only [normConditions, hmap h]

theorem normTable_rel {t t' : TableAccess} (h : TableRel t t') :
    normTable t = normTable t' := by
  obtain ⟨h1, -, h3, h4, h5⟩ := h
  rcases hc : t.conditions with _ | cs <;> rcases hc' : t'.conditions with _ | cs'
  · simp only [normTable, h1, h3, h5, hc, hc']
  · rw [hc, hc'] at h4; exact h4.elim
  · rw [hc, hc'] at h4; exact h4.elim
  · rw [hc, hc'] at h4
    simp only [normTable, h1, h3, h5, hc, hc']
    rw [normConditions_rel h4]

theorem map_normTable_rel : ∀ {ts ts' : List TableAccess},
    List.Forall₂ TableRel ts ts' → ts.map normTable = ts'.map normTable
  | _, _, .nil => rfl
  | _, _, .cons hrel hrest => by
    simp only [List.map_cons]
    rw [normTable_rel hrel, map_normTable_rel hrest]

theorem normRecord_rel {k k' : CacheKey} (h : KeyRel k k') :
    normRecord k = normRecord k' := by
  obtain ⟨htab, h2, h3, h4, h5, h6, h7, h8⟩ := h
  simp only [normRecord, h2, h3, h4, h5, h6, h7, h8, map_normTable_rel htab]

theorem find?_rel_of_condsRel {p : Condition → Bool}
    (hp : ∀ c c', CondRel c c' → p c = p c') :
    ∀ {cs cs' : List Condition}, CondsRel cs cs' →
    ((cs.find? p = none ∧ cs'.find? p = none) ∨
     ∃ c c', cs.find? p = some c ∧ cs'.find? p = some c' ∧ CondRel c c') := by
  intro cs cs' h
  induction h with
  | nil => exact .inl ⟨rfl, rfl⟩
  | cons hcc hrest ih =>
    rename_i c c' l l'
    by_cases hpc : p c = true
    · refine .inr ⟨c, c', ?_, ?_, hcc⟩
      · exact List.find?_cons_of_pos _ hpc
      · exact List.find?_cons_of_pos _ (by rw [← hp c c' hcc]; exact hpc)
    · have hpc' : ¬p c' = true := by rw [← hp c c' hcc]; exact hpc
      rw [List.find?_cons_of_neg _ hpc, List.find?_cons_of_neg _ hpc']
      exact ih

theorem pkHumanFingerprint_rel {t t' : TableAccess} (h : TableRel t t') :
    pkHumanFingerprint t = pkHumanFingerprint t' := by
  obtain ⟨htable, -, -, h4, -⟩ := h
  rcases hc : t.conditions with _ | cs <;>
    rcases hc' : t'.conditions with _ | cs'
  · simp [pkHumanFingerprint, hc, hc']
  · rw [hc, hc'] at h4; exact h4.elim
  · rw [hc, hc'] at h4; exact h4.elim
  · rw [hc, hc'] at h4
    rcases find?_rel_of_condsRel
        (p := fun c => decide ((strLower c.column = "id" ∨
          strLower c.column = "uuid") ∧
          (c.operator = "=" ∨ c.operator = "IN")))
        (fun c c' hcc => by
          obtain ⟨e1, e2, -⟩ := hcc
          simp only [e1, e2]) h4 with
      ⟨hf1, hf2⟩ | ⟨pk, pk', hf1, hf2, hpk⟩
    · simp only [Bool.decide_and, Bool.decide_or] at hf1 hf2
      simp [pkHumanFingerprint, hc, hc', hf1, hf2]
    · obtain ⟨e1, e2, hv⟩ := hpk
      have hval : (if pk.operator = "IN" then
            match pk.value with
            | Jv.arr xs =>
              String.intercalate "," ((jsSortValues xs).map jsString)
            | v => jsString v
          else jsString pk.value) =
          (if pk'.operator = "IN" then
            match pk'.value with
            | Jv.arr xs =>
              String.intercalate "," ((jsSortValues xs).map jsString)
            | v => jsString v
          else jsString pk'.value) := by
        rw [← e2]
        rcases hv with hv | ⟨hop, xs, xs', hx, hx', hperm, hsafe⟩
        · rw [hv]
        · rw [hx, hx', if_pos hop, if_pos hop]
          simp only []
          rw [jsSortValues_perm_eq hperm hsafe]
      simp only [Bool.decide_and, Bool.decide_or] at hf1 hf2
      simp [pkHumanFingerprint, hc, hc', hf1, hf2, htable, e1, hval]

theorem generateFingerprint_rel {k k' : CacheKey} (h : KeyRel k k') :
    generateFingerprint k = generateFingerprint k' := by
  have htab := h.1
  have hclass := h.2.1
  have hob := h.2.2.1
  have hlim := h.2.2.2.1
  have hoff := h.2.2.2.2.1
  have hdis := h.2.2.2.2.2.1
  have hsub := h.2.2.2.2.2.2.1
  have hset := h.2.2.2.2.2.2.2
  have hlen : k.tables.length = k'.tables.length := htab.length_eq
  have hrec : strTake (sha256hex (jsonStringify (normRecord k))) 16 =
      strTake (sha256hex (jsonStringify (normRecord k'))) 16 := by
    rw [normRecord_rel h]
  unfold generateFingerprint
  by_cases hg : k.classification = "row-lookup" ∧ k.tables.length = 1 ∧
      k.orderBy = none ∧ (k.limit = none ∨ k.limit = some 0) ∧
      (k.offset = none ∨ k.offset = some 0) ∧
      (k.distinct = none ∨ k.distinct = some false) ∧
      (k.hasSubquery = none ∨ k.hasSubquery = some false) ∧
      (k.setOperation = none ∨ k.setOperation = some "")
  · have hg' : k'.classification = "row-lookup" ∧ k'.tables.length = 1 ∧
        k'.orderBy = none ∧ (k'.limit = none ∨ k'.limit = some 0) ∧
        (k'.offset = none ∨ k'.offset = some 0) ∧
        (k'.distinct = none ∨ k'.distinct = some false) ∧
        (k'.hasSubquery = none ∨ k'.hasSubquery = some false) ∧
        (k'.setOperation = none ∨ k'.setOperation = some "") := by
      rw [← hclass, ← hlen, ← hob, ← hlim, ← hoff, ← hdis, ← hsub, ← hset]
      exact hg
    rw [if_pos hg, if_pos hg']
    rcases forall₂_head? htab with ⟨h1, h2⟩ | ⟨t, t', h1, h2, htt⟩
    · rw [h1, h2]
      simp only [Option.none_bind]
      exact hrec
    · rw [h1, h2]
      simp only [Option.some_bind, pkHumanFingerprint_rel htt]
      rcases hh : pkHumanFingerprint t' with _ | s
      · exact hrec
      · rfl
  · have hgn : ¬(k'.classification = "row-lookup" ∧ k'.tables.length = 1 ∧
        k'.orderBy = none ∧ (k'.limit = none ∨ k'.limit = some 0) ∧
        (k'.offset = none ∨ k'.offset = some 0) ∧
        (k'.distinct = none ∨ k'.distinct = some false) ∧
        (k'.hasSubquery = none ∨ k'.hasSubquery = some false) ∧
        (k'.setOperation = none ∨ k'.setOperation = some "")) := by
      rw [← hclass, ← hlen, ← hob, ← hlim, ← hoff, ← hdis, ← hsub, ← hset]
      exact hg
    rw [if_neg hg, if_neg hgn]
    exact hrec

set_option maxRecDepth 10000 in
/-- C8 counterexample: permuting a mixed-type `IN` list changes the
fingerprint.  For `status IN (5, 'b')` versus `status IN ('b', 5)` the
two-element sort compares with the JavaScript `>`, which is false in both
directions between the number `5` and the non-numeric string `'b'`
(`NaN` comparison), so both orders survive normalization and hash to
different structural fingerprints. -/
theorem c8_mixed_in_counterexample :
    [Jv.num 5, Jv.str "b"].Perm [Jv.str "b", Jv.num 5] ∧
    generateFingerprint (keyStatusIn [Jv.num 5, Jv.str "b"]) ≠
      generateFingerprint (keyStatusIn [Jv.str "b", Jv.num 5]) := by
  constructor
  · decide
  · decide

/-- C8 (amended): the fingerprint is invariant under permutations of `IN`
value lists that are sort-safe (homogeneous element types with injective
string conversion — every list of distinct numbers or distinct strings
qualifies); and, concretely, `analyzeSELECT` of the parameterised
`IN (?)` query bound to `[[3,1,2]]` yields the same fingerprint as the
literal `IN (1,2,3)` query. -/
theorem c8_in_permutation_invariance :
    (∀ k k' : CacheKey, KeyRel k k' →
      generateFingerprint k = generateFingerprint k') ∧
    (analyzeSELECT "SELECT * FROM users WHERE id IN (?)"
        (some (.positional [.arr [.num 3, .num 1, .num 2]]))).map
        (fun c => c.fingerprint) =
      (analyzeSELECT "SELECT * FROM users WHERE id IN (1,2,3)" none).map
        (fun c => c.fingerprint) :=
  ⟨fun _ _ h => generateFingerprint_rel h, by decide⟩

/-- C8 witness: the invariance theorem applied to the concrete pair of
row-lookup keys `users WHERE id IN [3,1,2]` and `users WHERE id IN
[1,2,3]`. -/
theorem c8_in_permutation_witness :
    generateFingerprint (keyIdIn [Jv.num 3, Jv.num 1, Jv.num 2]) =
      generateFingerprint (keyIdIn [Jv.num 1, Jv.num 2, Jv.num 3]) := by
  refine c8_in_permutation_invariance.1 _ _
    ⟨.cons ⟨rfl, rfl, rfl, ?_, rfl⟩ .nil, rfl, rfl, rfl, rfl, rfl, rfl, rfl⟩
  show CondsRel _ _
  refine .cons ⟨rfl, rfl, .inr ⟨rfl, _, _, rfl, rfl, ?_, ?_⟩⟩ .nil
  · decide
  · decide

end Cadabra
